import Mathlib

/-!
Verification of the `oneshot` single-value handoff channel
(`include/oneshot.hpp`).

The core of the library is `oneshot::detail::shared_state<T>`: a lock-free
state machine over a single atomic control word
(`empty = 0`, `engaged = 1`, `waiting = 2`, `sent = 3`, `detached = 4`),
a value storage slot, a raw pointer to the currently installed wait
registration (`wait_op_`), and a destruction callback (`deleter_`).

This file gives a shallow embedding of that state machine for the
sequentialized (interleaved) semantics: every operation of the source is a
single atomic read-modify-write on the control word followed by branch code,
so an interleaved execution is a sequence of whole operations.  Each
operation below is translated directly from the corresponding member
function of `shared_state`.  Besides the fields that mirror the C++ members
(`state_`, `wait_op_`, `payload_`), the Lean state carries history
(bookkeeping) fields that record observable events so that properties such
as "completed exactly once" and "the deleter is invoked exactly once" can be
stated: the list of all wait registrations ever created (with the outcomes
delivered to each), construction/destruction counters for the stored value,
a counter of `deleter_` invocations, and one flag per side recording that
the side's handle has been released (the facade nulls the handle after its
terminal action).
-/

namespace Oneshot

/-- Completion outcomes.  `success` models the default-constructed
`error_code` (`{}`); the rest mirror `oneshot::errc`
(`no_state = 1, cancelled, unready, broken_sender,
duplicate_wait_on_receiver`). -/
inductive Outcome
  | success
  | noState
  | cancelled
  | unready
  | brokenSender
  | duplicateWait
deriving DecidableEq, Repr

/-- `errc` numeric values from the source enum, with `success` as the
zero value of a default `error_code`. -/
def Outcome.code : Outcome → Nat
  | .success => 0
  | .noState => 1
  | .cancelled => 2
  | .unready => 3
  | .brokenSender => 4
  | .duplicateWait => 5

/-- The anonymous `uint8_t` enum inside `shared_state`. -/
abbrev empty : Nat := 0

/-- `engaged = 1`. -/
abbrev engaged : Nat := 1

/-- `waiting = 2`. -/
abbrev waiting : Nat := 2

/-- `sent = 3`. -/
abbrev sent : Nat := 3

/-- `detached = 4`. -/
abbrev detached : Nat := 4

/-- History record for one wait registration (`detail::wait_op_model`).
`has_slot` records whether the handler's cancellation slot was connected;
`slot_armed` is true while the cancel callback assigned by `async_wait`
is still installed (it is cleared by the posted completion handler);
`completions` is the list of outcomes passed to `complete` on this
registration, in order; `delivered` counts how many posted completion
handlers have actually run (each run clears the slot, destroys the model
and invokes the user handler). -/
structure Reg where
  has_slot : Bool
  slot_armed : Bool
  completions : List Outcome
  delivered : Nat
deriving DecidableEq, Repr

/-- The shared cell.  `state_`, `wait_op_` and `payload_` mirror the members
of `shared_state<T>` (`T` is modelled as `Nat`, with `T\x7b\x7d` = `0`;
`wait_op_` holds the index of the installed registration, `none` for
`nullptr`).  The remaining fields are history variables: `value_live`,
`construct_count`, `destroy_count` track `storage_.construct/destroy`;
`free_count` counts invocations of `deleter_`; `regs` is every registration
ever created by `async_wait`, indexed by creation order; `sender_done` /
`receiver_done` record that the corresponding handle has been released
(after `send` / a detach), which is what makes each side's terminal action
happen at most once. -/
structure shared_state where
  state_ : Nat
  wait_op_ : Option Nat
  payload_ : Nat
  value_live : Bool
  construct_count : Nat
  destroy_count : Nat
  free_count : Nat
  regs : List Reg
  sender_done : Bool
  receiver_done : Bool
deriving DecidableEq, Repr

/-- The state right after `create`: `state_\x7b empty \x7d`,
`wait_op_\x7b nullptr \x7d`, nothing constructed, nothing freed. -/
def shared_state.init : shared_state :=
  { state_ := empty, wait_op_ := none, payload_ := 0, value_live := false
    construct_count := 0, destroy_count := 0, free_count := 0
    regs := [], sender_done := false, receiver_done := false }

/-- Apply `f` to the element at index `i`, leaving the rest unchanged. -/
def modifyAt (f : Reg → Reg) : List Reg → Nat → List Reg
  | [], _ => []
  | r :: rs, 0 => f r :: rs
  | r :: rs, i + 1 => r :: modifyAt f rs i

/-- Record one `complete(out)` call on a registration's history. -/
def appendOutcome (out : Outcome) (r : Reg) : Reg :=
  { r with completions := r.completions ++ [out] }

/-- `wait_op_->complete(out)` viewed on the history: record outcome `out`
on registration `i`. -/
def shared_state.complete_reg (s : shared_state) (i : Nat) (out : Outcome) :
    shared_state :=
  { s with regs := modifyAt (appendOutcome out) s.regs i }

/-- `storage_.construct(v)`. -/
def shared_state.construct (s : shared_state) (v : Nat) : shared_state :=
  { s with payload_ := v, value_live := true
           construct_count := s.construct_count + 1 }

/-- `storage_.destroy()`. -/
def shared_state.destroy (s : shared_state) : shared_state :=
  { s with value_live := false, destroy_count := s.destroy_count + 1 }

/-- `deleter_(this)`: the shared cell frees itself. -/
def shared_state.free (s : shared_state) : shared_state :=
  { s with free_count := s.free_count + 1 }

/-- Translation of `shared_state::send` (facade `sender::send` included:
it releases the sender handle afterwards, recorded as `sender_done`):

    storage_.construct(args...);
    auto prev = state_.fetch_add(1, release);     // uint8_t arithmetic
    if (prev == detached) \x7b storage_.destroy(); return deleter_(this); \x7d
    if (prev == waiting)  \x7b wait_op_->complete(\x7b\x7d); \x7d
-/
def shared_state.send (s0 : shared_state) (v : Nat) : shared_state :=
  let s1 := s0.construct v
  let prev := s1.state_
  let s2 := { s1 with state_ := (s1.state_ + 1) % 256, sender_done := true }
  if prev = detached then (s2.destroy).free
  else if prev = waiting then
    match s2.wait_op_ with
    | some i => s2.complete_reg i Outcome.success
    | none => s2
  else s2

/-- Translation of `shared_state::sender_detached` (invoked by the sender
handle's destructor, hence `sender_done`):

    auto prev = state_.exchange(detached, relaxed);
    if (prev == detached) return deleter_(this);
    if (prev == waiting)  wait_op_->complete(errc::broken_sender);
-/
def shared_state.sender_detached (s0 : shared_state) : shared_state :=
  let prev := s0.state_
  let s1 := { s0 with state_ := detached, sender_done := true }
  if prev = detached then s1.free
  else if prev = waiting then
    match s1.wait_op_ with
    | some i => s1.complete_reg i Outcome.brokenSender
    | none => s1
  else s1

/-- A freshly constructed `wait_op_model`: nothing completed or delivered
yet; the cancellation slot, when connected, has just been assigned the
cancel callback. -/
def newReg (hasSlot : Bool) : Reg :=
  { has_slot := hasSlot, slot_armed := hasSlot
    completions := [], delivered := 0 }

/-- Translation of the initiation body of `shared_state::async_wait`.
A fresh `wait_op_model` is constructed (appended to the history with index
`s0.regs.length`); its cancellation slot, if connected (`hasSlot`), is
assigned the cancel callback.  Then, exactly as in the source:

    if (wait_op_) return model->complete(errc::duplicate_wait_on_receiver);
    wait_op_ = model;
    auto prev = state_.exchange(waiting, release);
    if (prev == detached)
      \x7b state_.store(prev); model->complete(errc::broken_sender); \x7d
    else if (prev == engaged)
      \x7b state_.store(prev); model->complete(\x7b\x7d); \x7d
-/
def shared_state.async_wait (s0 : shared_state) (hasSlot : Bool) :
    shared_state :=
  let n := s0.regs.length
  let s1 := { s0 with regs := s0.regs ++ [newReg hasSlot] }
  if s1.wait_op_.isSome then
    s1.complete_reg n Outcome.duplicateWait
  else
    let s2 := { s1 with wait_op_ := some n }
    let prev := s2.state_
    let s3 := { s2 with state_ := waiting }
    if prev = detached then
      ({ s3 with state_ := prev }).complete_reg n Outcome.brokenSender
    else if prev = engaged then
      ({ s3 with state_ := prev }).complete_reg n Outcome.success
    else s3

/-- Translation of the cancellation-slot callback installed by
`async_wait` (run when the associated cancellation signal fires with a
type other than `none`):

    auto prev = state_.exchange(empty, relaxed);
    if (prev == waiting)
      \x7b wait_op_->complete(errc::cancelled); wait_op_ = nullptr; \x7d
    else
      state_.store(prev, relaxed);
-/
def shared_state.cancel_handler (s0 : shared_state) : shared_state :=
  let prev := s0.state_
  let s1 := { s0 with state_ := empty }
  if prev = waiting then
    match s1.wait_op_ with
    | some i => { (s1.complete_reg i Outcome.cancelled) with wait_op_ := none }
    | none => s1
  else { s1 with state_ := prev }

/-- Translation of `shared_state::receiver_detached` (invoked by the
receiver handle's destructor, hence `receiver_done`):

    auto prev = state_.exchange(detached, relaxed);
    if (prev == detached) return deleter_(this);
    if (prev == engaged || prev == sent)
      \x7b storage_.destroy(); return deleter_(this); \x7d
-/
def shared_state.receiver_detached (s0 : shared_state) : shared_state :=
  let prev := s0.state_
  let s1 := { s0 with state_ := detached, receiver_done := true }
  if prev = detached then s1.free
  else if prev = engaged ∨ prev = sent then (s1.destroy).free
  else s1

/-- Effect of the posted completion handler on a registration's history:
the cancellation slot is cleared and the user handler runs once. -/
def deliverReg (r : Reg) : Reg :=
  { r with slot_armed := false, delivered := r.delivered + 1 }

/-- The posted completion handler of `wait_op_model::complete` finally
running: it clears the cancellation slot, destroys the model and invokes
the user handler (counted by `delivered`). -/
def shared_state.deliver (s : shared_state) (i : Nat) : shared_state :=
  { s with regs := modifyAt deliverReg s.regs i }

/-- Translation of `shared_state::is_ready`:
`state == sent || state == engaged` (relaxed load). -/
def shared_state.is_ready (s : shared_state) : Bool :=
  s.state_ == sent || s.state_ == engaged

/-- Translation of `shared_state::get_stored_object`: returns the storage
object if `state == sent || state == engaged`, else `nullptr` (acquire
load). -/
def shared_state.get_stored_object (s : shared_state) : Option Nat :=
  if s.state_ = sent ∨ s.state_ = engaged then some s.payload_ else none

/-- Synchronous part of `receiver::async_extract` (a receiver is its
handle, `none` for a null one): `throw error\x7b errc::no_state \x7d` when
null, otherwise initiate by registering a wait on the shared state. -/
def async_extract_start (h : Option shared_state) (hasSlot : Bool) :
    Except Outcome shared_state :=
  match h with
  | none => Except.error Outcome.noState
  | some s => Except.ok (s.async_wait hasSlot)

/-- Continuation of `receiver::async_extract` for non-void `T` (here
`T = Nat`, default-constructed `T\x7b\x7d = 0`), run when the registered
wait completes with `ec`, reading the cell `s` as it is at that point:

    if (ec) return self.complete(ec, T\x7b\x7d);
    if (auto* p = shs_handle->get_stored_object())
      return self.complete(ec, std::move(*p));
    else
      return self.complete(errc::unready, T\x7b\x7d);
-/
def async_extract_cont (s : shared_state) (ec : Outcome) : Outcome × Nat :=
  if ec ≠ Outcome.success then (ec, 0)
  else
    match s.get_stored_object with
    | some v => (ec, v)
    | none => (Outcome.unready, 0)

/-- Continuation of `receiver::async_extract` for `T = void`: both the
error branch and the success branch complete with `ec` alone. -/
def async_extract_cont_void (ec : Outcome) : Outcome :=
  if ec ≠ Outcome.success then ec else ec

/-- One interleaved action on the shared cell.  `send`/`senderDetach` are
the sender side's terminal actions; `registerWait` is the receiver's
`async_wait` initiation (with/without a connected cancellation slot);
`cancel j` is registration `j`'s cancellation signal firing;
`receiverDetach` is the receiver handle's destructor; `deliver j` is the
posted completion handler of registration `j` running. -/
inductive Act
  | send (v : Nat)
  | senderDetach
  | registerWait (hasSlot : Bool)
  | cancel (j : Nat)
  | receiverDetach
  | deliver (j : Nat)
deriving DecidableEq, Repr

/-- When an action can occur in a well-formed execution: a side acts only
while its handle is live, nobody touches a freed cell, a cancel callback
fires only while it is still installed, a posted completion runs only after
the corresponding `complete` call. -/
def enabled (s : shared_state) : Act → Bool
  | Act.send _ => !s.sender_done && s.free_count == 0
  | Act.senderDetach => !s.sender_done && s.free_count == 0
  | Act.registerWait _ => !s.receiver_done && s.free_count == 0
  | Act.cancel j =>
      s.free_count == 0 &&
        (match s.regs[j]? with
         | some r => r.slot_armed
         | none => false)
  | Act.receiverDetach => !s.receiver_done && s.free_count == 0
  | Act.deliver j =>
      match s.regs[j]? with
      | some r => decide (r.delivered < r.completions.length)
      | none => false

/-- Effect of an action. -/
def applyAct (s : shared_state) : Act → shared_state
  | Act.send v => s.send v
  | Act.senderDetach => s.sender_detached
  | Act.registerWait b => s.async_wait b
  | Act.cancel _ => s.cancel_handler
  | Act.receiverDetach => s.receiver_detached
  | Act.deliver j => s.deliver j

/-- Run a sequence of actions. -/
def run (s : shared_state) : List Act → shared_state
  | [] => s
  | a :: rest => run (applyAct s a) rest

/-- A sequence of actions each enabled when taken. -/
def validFrom (s : shared_state) : List Act → Bool
  | [] => true
  | a :: rest => enabled s a && validFrom (applyAct s a) rest

/-- The source comment in `receiver_detached`
(`// possible vals: empty, engaged, sent, detached(sender)`) excludes
`waiting`: the receiver handle is not supposed to be destroyed while a wait
registration is still pending.  An action is safe when it respects that
precondition. -/
def safeAct (s : shared_state) : Act → Bool
  | Act.receiverDetach => s.state_ != waiting
  | _ => true

/-- A sequence of actions each enabled and safe when taken. -/
def safeFrom (s : shared_state) : List Act → Bool
  | [] => true
  | a :: rest => enabled s a && safeAct s a && safeFrom (applyAct s a) rest

/-- States of the cell reachable from creation by enabled actions. -/
def reachable (s : shared_state) : Prop :=
  ∃ as, validFrom shared_state.init as = true ∧ run shared_state.init as = s

/-- A registration's completion history is well formed: `complete` was
called at most once on it, and only ever with one of the four
asynchronously delivered outcomes. -/
def regOutcomesOK (r : Reg) : Prop :=
  r.completions.length ≤ 1 ∧
  ∀ o ∈ r.completions, o = Outcome.success ∨ o = Outcome.cancelled ∨
    o = Outcome.brokenSender ∨ o = Outcome.duplicateWait

/-- Inductive invariant of the sequentialized state machine, preserved by
every enabled action.  The four `shape` fields relate the control word, the
two done flags and the free counter (realizing the two-party
"last one out frees" protocol); the `cnt`/`live` fields govern the stored
value's construction/destruction; `wait_lt`/`ctl_wait` say the installed
registration index is meaningful; `regs_ok` says no registration is ever
completed twice or with a synchronous-only error; `pending_empty` says the
registration installed while `waiting` has not been completed yet. -/
structure InvB (s : shared_state) : Prop where
  shape_nn : s.sender_done = false → s.receiver_done = false →
    (s.state_ = empty ∨ s.state_ = waiting) ∧ s.free_count = 0
  shape_sn : s.sender_done = true → s.receiver_done = false →
    (s.state_ = engaged ∨ s.state_ = sent ∨ s.state_ = detached) ∧
      s.free_count = 0
  shape_nr : s.sender_done = false → s.receiver_done = true →
    s.state_ = detached ∧ s.free_count = 0
  shape_sr : s.sender_done = true → s.receiver_done = true →
    (s.state_ = detached ∨ s.state_ = 5) ∧ s.free_count = 1
  cnt_le : s.construct_count ≤ 1
  cnt_live_t : s.value_live = true →
    s.construct_count = s.destroy_count + 1
  cnt_live_f : s.value_live = false →
    s.construct_count = s.destroy_count
  cnt_sender : s.sender_done = false → s.construct_count = 0
  free_live : s.free_count = 1 → s.value_live = false
  live_ctl : s.free_count = 0 →
    (s.value_live = true ↔ (s.state_ = engaged ∨ s.state_ = sent))
  wait_lt : ∀ i, s.wait_op_ = some i → i < s.regs.length
  ctl_wait : s.state_ = waiting ∨ s.state_ = sent → s.wait_op_.isSome = true
  regs_ok : ∀ (i : Nat) (r : Reg), s.regs[i]? = some r → regOutcomesOK r
  pending_empty : s.state_ = waiting → ∀ i, s.wait_op_ = some i →
    ∀ (r : Reg), s.regs[i]? = some r → r.completions = []

/-- Every registration that has not been completed yet is the one
currently installed while the control word is `waiting`.  This fails on
unrestricted executions (a receiver-detach in state `waiting` orphans the
pending registration) and is preserved only by safe actions. -/
def uncompletedPending (s : shared_state) : Prop :=
  ∀ i r, s.regs[i]? = some r → r.completions = [] →
    s.wait_op_ = some i ∧ s.state_ = waiting

/-- The invariant for safe executions. -/
def InvS (s : shared_state) : Prop := InvB s ∧ uncompletedPending s

theorem modifyAt_length (f : Reg → Reg) (l : List Reg) (i : Nat) :
    (modifyAt f l i).length = l.length := by
  induction l generalizing i with
  | nil => simp [modifyAt]
  | cons r rs ih =>
      cases i with
      | zero => simp [modifyAt]
      | succ j => simp [modifyAt, ih]

theorem modifyAt_getElem?_self (f : Reg → Reg) (l : List Reg) (i : Nat) :
    (modifyAt f l i)[i]? = (l[i]?).map f := by
  induction l generalizing i with
  | nil => simp [modifyAt]
  | cons r rs ih =>
      cases i with
      | zero => simp [modifyAt]
      | succ j => simpa [modifyAt] using ih j

theorem modifyAt_getElem?_ne (f : Reg → Reg) (l : List Reg) (i j : Nat)
    (h : j ≠ i) : (modifyAt f l i)[j]? = l[j]? := by
  induction l generalizing i j with
  | nil => simp [modifyAt]
  | cons r rs ih =>
      cases i with
      | zero =>
          cases j with
          | zero => exact absurd rfl h
          | succ j2 => simp [modifyAt]
      | succ i2 =>
          cases j with
          | zero => simp [modifyAt]
          | succ j2 =>
              have h2 : j2 ≠ i2 := fun hc => h (by simp [hc])
              simpa [modifyAt] using ih i2 j2 h2

theorem modifyAt_append_length (f : Reg → Reg) (l : List Reg) (x : Reg) :
    modifyAt f (l ++ [x]) l.length = l ++ [f x] := by
  induction l with
  | nil => simp [modifyAt]
  | cons r rs ih => simp [modifyAt, ih]

theorem getElem?_append_lt (l : List Reg) (x : Reg) (j : Nat)
    (h : j < l.length) : (l ++ [x])[j]? = l[j]? := by
  induction l generalizing j with
  | nil => simp at h
  | cons r rs ih =>
      cases j with
      | zero => simp
      | succ j2 =>
          have h2 : j2 < rs.length := by simpa using h
          simp [ih j2 h2]

theorem getElem?_append_length (l : List Reg) (x : Reg) :
    (l ++ [x])[l.length]? = some x := by
  induction l with
  | nil => simp
  | cons r rs ih => simp [ih]

theorem getElem?_none_of_le (l : List Reg) (k : Nat) (h : l.length ≤ k) :
    l[k]? = none := by
  induction l generalizing k with
  | nil => simp
  | cons r rs ih =>
      cases k with
      | zero => simp at h
      | succ k2 => simpa using ih k2 (by simpa using h)

theorem getElem?_some_lt (l : List Reg) (k : Nat) (r : Reg)
    (h : l[k]? = some r) : k < l.length := by
  by_contra hc
  rw [getElem?_none_of_le l k (by omega)] at h
  cases h

theorem getElem?_append_cases (l : List Reg) (x : Reg) (k : Nat) (r : Reg)
    (h : (l ++ [x])[k]? = some r) :
    (k < l.length ∧ l[k]? = some r) ∨ (k = l.length ∧ r = x) := by
  rcases Nat.lt_trichotomy k l.length with hk | hk | hk
  · rw [getElem?_append_lt l x k hk] at h
    exact Or.inl ⟨hk, h⟩
  · subst hk
    rw [getElem?_append_length] at h
    exact Or.inr ⟨rfl, (Option.some.inj h).symm⟩
  · rw [getElem?_none_of_le (l ++ [x]) k (by simp; omega)] at h
    cases h

/-- `send` invoked in state `empty`: value constructed, single
fetch-and-advance moves the control word to `engaged`, no branch taken
(no notification, no free). -/
theorem send_empty_eq (s : shared_state) (v : Nat) (h : s.state_ = empty) :
    s.send v =
      { s with payload_ := v, value_live := true
               construct_count := s.construct_count + 1
               state_ := engaged, sender_done := true } := by
  simp [shared_state.send, shared_state.construct, h]

/-- `send` invoked in state `waiting`: value constructed, control word
advances to `sent`, the installed registration is completed with success
(`wait_op_` is left untouched). -/
theorem send_waiting_eq (s : shared_state) (v : Nat) (i : Nat)
    (h : s.state_ = waiting) (hw : s.wait_op_ = some i) :
    s.send v =
      { s with payload_ := v, value_live := true
               construct_count := s.construct_count + 1
               state_ := sent, sender_done := true
               regs := modifyAt (appendOutcome Outcome.success) s.regs i } := by
  simp [shared_state.send, shared_state.construct, shared_state.complete_reg,
    h, hw]
  decide

/-- `send` invoked in state `detached` (receiver already gone): value
constructed then immediately destroyed, cell freed. -/
theorem send_detached_eq (s : shared_state) (v : Nat)
    (h : s.state_ = detached) :
    s.send v =
      { s with payload_ := v, value_live := false
               construct_count := s.construct_count + 1
               destroy_count := s.destroy_count + 1
               state_ := 5, sender_done := true
               free_count := s.free_count + 1 } := by
  simp [shared_state.send, shared_state.construct, shared_state.destroy,
    shared_state.free, h]
  decide

/-- `sender_detached` invoked in a state other than `waiting`/`detached`:
only marks the control word `detached`. -/
theorem sender_detached_other_eq (s : shared_state)
    (h2 : s.state_ ≠ waiting) (h4 : s.state_ ≠ detached) :
    s.sender_detached = { s with state_ := detached, sender_done := true } := by
  simp [shared_state.sender_detached, h2, h4]

/-- `sender_detached` invoked in state `waiting`: control word set to
`detached`, installed registration completed with `broken_sender`. -/
theorem sender_detached_waiting_eq (s : shared_state) (i : Nat)
    (h : s.state_ = waiting) (hw : s.wait_op_ = some i) :
    s.sender_detached =
      { s with state_ := detached, sender_done := true
               regs := modifyAt (appendOutcome Outcome.brokenSender)
                 s.regs i } := by
  simp [shared_state.sender_detached, shared_state.complete_reg, h, hw]

/-- `sender_detached` invoked in state `detached` (receiver already gone):
frees the cell. -/
theorem sender_detached_detached_eq (s : shared_state)
    (h : s.state_ = detached) :
    s.sender_detached =
      { s with state_ := detached, sender_done := true
               free_count := s.free_count + 1 } := by
  simp [shared_state.sender_detached, shared_state.free, h]

/-- `async_wait` invoked while `wait_op_` is non-null: the new
registration is completed immediately with `duplicate_wait_on_receiver`;
neither the control word nor `wait_op_` nor any prior registration is
touched. -/
theorem async_wait_dup_eq (s : shared_state) (b : Bool) (j : Nat)
    (hw : s.wait_op_ = some j) :
    s.async_wait b =
      { s with regs := s.regs ++
          [appendOutcome Outcome.duplicateWait (newReg b)] } := by
  simp [shared_state.async_wait, shared_state.complete_reg, hw,
    modifyAt_append_length]

/-- `async_wait` invoked with `wait_op_` null in state `empty`: the new
registration is installed and the control word becomes `waiting`. -/
theorem async_wait_empty_eq (s : shared_state) (b : Bool)
    (hw : s.wait_op_ = none) (h : s.state_ = empty) :
    s.async_wait b =
      { s with regs := s.regs ++ [newReg b]
               wait_op_ := some s.regs.length, state_ := waiting } := by
  simp [shared_state.async_wait, hw, h]

/-- `async_wait` invoked with `wait_op_` null in state `engaged`: the
control word is restored and the new registration (which stays installed
in `wait_op_`) is completed immediately with success. -/
theorem async_wait_engaged_eq (s : shared_state) (b : Bool)
    (hw : s.wait_op_ = none) (h : s.state_ = engaged) :
    s.async_wait b =
      { s with regs := s.regs ++ [appendOutcome Outcome.success (newReg b)]
               wait_op_ := some s.regs.length, state_ := engaged } := by
  simp [shared_state.async_wait, shared_state.complete_reg, hw, h,
    modifyAt_append_length]

/-- `async_wait` invoked with `wait_op_` null in state `detached` (sender
already gone): the control word is restored and the new registration is
completed immediately with `broken_sender`. -/
theorem async_wait_detached_eq (s : shared_state) (b : Bool)
    (hw : s.wait_op_ = none) (h : s.state_ = detached) :
    s.async_wait b =
      { s with regs := s.regs ++
          [appendOutcome Outcome.brokenSender (newReg b)]
               wait_op_ := some s.regs.length, state_ := detached } := by
  simp [shared_state.async_wait, shared_state.complete_reg, hw, h,
    modifyAt_append_length]

/-- The cancel callback firing in state `waiting`: the control word
becomes `empty`, the installed registration is completed with `cancelled`
and `wait_op_` is cleared. -/
theorem cancel_waiting_eq (s : shared_state) (i : Nat)
    (h : s.state_ = waiting) (hw : s.wait_op_ = some i) :
    s.cancel_handler =
      { s with state_ := empty, wait_op_ := none
               regs := modifyAt (appendOutcome Outcome.cancelled)
                 s.regs i } := by
  simp [shared_state.cancel_handler, shared_state.complete_reg, h, hw]

/-- The cancel callback firing in any state other than `waiting`: the
observed control word is stored back and nothing else happens. -/
theorem cancel_other_eq (s : shared_state) (h : s.state_ ≠ waiting) :
    s.cancel_handler = s := by
  cases s
  simp [shared_state.cancel_handler] at h ⊢
  simp [h]

/-- `receiver_detached` invoked in a state with no value and sender still
present (`empty` or `waiting`): only marks the control word `detached`. -/
theorem receiver_detached_mark_eq (s : shared_state)
    (h1 : s.state_ ≠ engaged) (h3 : s.state_ ≠ sent)
    (h4 : s.state_ ≠ detached) :
    s.receiver_detached =
      { s with state_ := detached, receiver_done := true } := by
  simp [shared_state.receiver_detached, h1, h3, h4]

/-- `receiver_detached` invoked in state `engaged` or `sent`: destroys the
stored value and frees the cell. -/
theorem receiver_detached_value_eq (s : shared_state)
    (h : s.state_ = engaged ∨ s.state_ = sent) :
    s.receiver_detached =
      { s with state_ := detached, receiver_done := true
               value_live := false, destroy_count := s.destroy_count + 1
               free_count := s.free_count + 1 } := by
  rcases h with h | h <;>
    simp [shared_state.receiver_detached, shared_state.destroy,
      shared_state.free, h]

/-- `receiver_detached` invoked in state `detached` (sender already gone):
frees the cell. -/
theorem receiver_detached_detached_eq (s : shared_state)
    (h : s.state_ = detached) :
    s.receiver_detached =
      { s with state_ := detached, receiver_done := true
               free_count := s.free_count + 1 } := by
  simp [shared_state.receiver_detached, shared_state.free, h]

theorem invB_init : InvB shared_state.init := by
  refine ⟨?_, ?_, ?_, ?_, ?_, ?_, ?_, ?_, ?_, ?_, ?_, ?_, ?_, ?_⟩ <;>
    simp [shared_state.init]

theorem regOutcomesOK_complete (l : List Reg) (i : Nat) (out : Outcome)
    (hout : out = Outcome.success ∨ out = Outcome.cancelled ∨
      out = Outcome.brokenSender ∨ out = Outcome.duplicateWait)
    (hok : ∀ (k : Nat) (rk : Reg), l[k]? = some rk → regOutcomesOK rk)
    (hpend : ∀ (r : Reg), l[i]? = some r → r.completions = []) :
    ∀ (k : Nat) (rk : Reg), (modifyAt (appendOutcome out) l i)[k]? = some rk →
      regOutcomesOK rk := by
  intro k rk hk
  by_cases hki : k = i
  · subst hki
    rw [modifyAt_getElem?_self] at hk
    cases hl : l[k]? with
    | none => rw [hl] at hk; cases hk
    | some r =>
        rw [hl] at hk
        have hrk : rk = appendOutcome out r := (Option.some.inj hk).symm
        subst hrk
        have hre := hpend r hl
        refine ⟨?_, ?_⟩
        · simp [appendOutcome, hre]
        · intro o ho
          simp [appendOutcome, hre] at ho
          rw [ho]
          exact hout
  · rw [modifyAt_getElem?_ne (appendOutcome out) l i k hki] at hk
    exact hok k rk hk

theorem regOutcomesOK_append (l : List Reg) (x : Reg)
    (hok : ∀ (k : Nat) (rk : Reg), l[k]? = some rk → regOutcomesOK rk)
    (hx : regOutcomesOK x) :
    ∀ (k : Nat) (rk : Reg), (l ++ [x])[k]? = some rk → regOutcomesOK rk := by
  intro k rk hk
  rcases getElem?_append_cases l x k rk hk with ⟨_, hget⟩ | ⟨_, hre⟩
  · exact hok k rk hget
  · rw [hre]; exact hx

theorem regOutcomesOK_newReg (b : Bool) : regOutcomesOK (newReg b) := by
  constructor <;> simp [newReg, regOutcomesOK]

theorem regOutcomesOK_newReg_out (b : Bool) (out : Outcome)
    (hout : out = Outcome.success ∨ out = Outcome.cancelled ∨
      out = Outcome.brokenSender ∨ out = Outcome.duplicateWait) :
    regOutcomesOK (appendOutcome out (newReg b)) := by
  refine ⟨by simp [appendOutcome, newReg], ?_⟩
  intro o ho
  simp [appendOutcome, newReg] at ho
  rw [ho]
  exact hout

theorem regOutcomesOK_deliver (l : List Reg) (i : Nat)
    (hok : ∀ (k : Nat) (rk : Reg), l[k]? = some rk → regOutcomesOK rk) :
    ∀ (k : Nat) (rk : Reg), (modifyAt deliverReg l i)[k]? = some rk →
      regOutcomesOK rk := by
  intro k rk hk
  by_cases hki : k = i
  · subst hki
    rw [modifyAt_getElem?_self] at hk
    cases hl : l[k]? with
    | none => rw [hl] at hk; cases hk
    | some r =>
        rw [hl] at hk
        have hrk : rk = deliverReg r := (Option.some.inj hk).symm
        subst hrk
        exact hok k r hl
  · rw [modifyAt_getElem?_ne deliverReg l i k hki] at hk
    exact hok k rk hk

theorem invB_send_empty (s : shared_state) (v : Nat) (hB : InvB s)
    (h : s.state_ = empty) (hsd : s.sender_done = false)
    (hf : s.free_count = 0) : InvB (s.send v) := by
  obtain ⟨nn, sn, nr, sr, cle, clivt, clivf, csend, fliv, lctl, wlt, cwait,
    rok, pend⟩ := hB
  have hc0 := csend hsd
  have hlv : s.value_live = false := by
    cases hvl : s.value_live with
    | false => rfl
    | true =>
        rcases (lctl hf).mp hvl with hx | hx <;>
          exact absurd (h.symm.trans hx) (by decide)
  have hd0 : s.destroy_count = 0 := by
    have := clivf hlv
    omega
  rw [send_empty_eq s v h]
  refine ⟨?_, ?_, ?_, ?_, ?_, ?_, ?_, ?_, ?_, ?_, ?_, ?_, ?_, ?_⟩
  · exact fun h2 _ => Bool.noConfusion h2
  · exact fun _ _ => ⟨Or.inl rfl, hf⟩
  · exact fun h2 _ => Bool.noConfusion h2
  · exact fun _ hrd => absurd (h.symm.trans (nr hsd hrd).1) (by decide)
  · show s.construct_count + 1 ≤ 1
    omega
  · intro _
    show s.construct_count + 1 = s.destroy_count + 1
    omega
  · exact fun h2 => Bool.noConfusion h2
  · exact fun h2 => Bool.noConfusion h2
  · intro h1
    exact absurd (hf.symm.trans h1) (by decide)
  · exact fun _ => by simp
  · exact wlt
  · intro hc
    rcases hc with hc | hc <;> simp at hc
  · exact rok
  · intro hc
    simp at hc

theorem invB_send_waiting (s : shared_state) (v : Nat) (hB : InvB s)
    (h : s.state_ = waiting) (hsd : s.sender_done = false)
    (hf : s.free_count = 0) : InvB (s.send v) := by
  obtain ⟨nn, sn, nr, sr, cle, clivt, clivf, csend, fliv, lctl, wlt, cwait,
    rok, pend⟩ := hB
  have hws : s.wait_op_.isSome = true := cwait (Or.inl h)
  obtain ⟨i, hw⟩ : ∃ i, s.wait_op_ = some i := by
    cases hww : s.wait_op_ with
    | none => rw [hww] at hws; cases hws
    | some i => exact ⟨i, rfl⟩
  have hc0 := csend hsd
  have hlv : s.value_live = false := by
    cases hvl : s.value_live with
    | false => rfl
    | true =>
        rcases (lctl hf).mp hvl with hx | hx <;>
          exact absurd (h.symm.trans hx) (by decide)
  have hd0 : s.destroy_count = 0 := by
    have := clivf hlv
    omega
  rw [send_waiting_eq s v i h hw]
  refine ⟨?_, ?_, ?_, ?_, ?_, ?_, ?_, ?_, ?_, ?_, ?_, ?_, ?_, ?_⟩
  · exact fun h2 _ => Bool.noConfusion h2
  · exact fun _ _ => ⟨Or.inr (Or.inl rfl), hf⟩
  · exact fun h2 _ => Bool.noConfusion h2
  · exact fun _ hrd => absurd (h.symm.trans (nr hsd hrd).1) (by decide)
  · show s.construct_count + 1 ≤ 1
    omega
  · intro _
    show s.construct_count + 1 = s.destroy_count + 1
    omega
  · exact fun h2 => Bool.noConfusion h2
  · exact fun h2 => Bool.noConfusion h2
  · intro h1
    exact absurd (hf.symm.trans h1) (by decide)
  · exact fun _ => by simp
  · intro k hk
    show k < (modifyAt (appendOutcome Outcome.success) s.regs i).length
    rw [modifyAt_length]
    exact wlt k hk
  · intro _
    simp [hw]
  · exact regOutcomesOK_complete s.regs i Outcome.success (Or.inl rfl) rok
      (pend h i hw)
  · intro hc
    simp at hc

theorem invB_send_detached (s : shared_state) (v : Nat) (hB : InvB s)
    (h : s.state_ = detached) (hsd : s.sender_done = false)
    (hf : s.free_count = 0) : InvB (s.send v) := by
  obtain ⟨nn, sn, nr, sr, cle, clivt, clivf, csend, fliv, lctl, wlt, cwait,
    rok, pend⟩ := hB
  have hc0 := csend hsd
  have hlv : s.value_live = false := by
    cases hvl : s.value_live with
    | false => rfl
    | true =>
        rcases (lctl hf).mp hvl with hx | hx <;>
          exact absurd (h.symm.trans hx) (by decide)
  have hd0 : s.destroy_count = 0 := by
    have := clivf hlv
    omega
  have hrd : s.receiver_done = true := by
    cases hrdc : s.receiver_done with
    | true => rfl
    | false =>
        rcases (nn hsd hrdc).1 with hx | hx <;>
          exact absurd (h.symm.trans hx) (by decide)
  rw [send_detached_eq s v h]
  refine ⟨?_, ?_, ?_, ?_, ?_, ?_, ?_, ?_, ?_, ?_, ?_, ?_, ?_, ?_⟩
  · exact fun h2 _ => Bool.noConfusion h2
  · exact fun _ h2 => absurd (hrd.symm.trans h2) (by decide)
  · exact fun h2 _ => Bool.noConfusion h2
  · refine fun _ _ => ⟨Or.inr rfl, ?_⟩
    show s.free_count + 1 = 1
    omega
  · show s.construct_count + 1 ≤ 1
    omega
  · exact fun h2 => Bool.noConfusion h2
  · intro _
    show s.construct_count + 1 = s.destroy_count + 1
    omega
  · exact fun h2 => Bool.noConfusion h2
  · exact fun _ => rfl
  · intro h2
    have h3 : s.free_count + 1 = 0 := h2
    exact absurd h3 (by omega)
  · exact wlt
  · intro hc
    rcases hc with hc | hc <;> simp at hc
  · exact rok
  · intro hc
    simp at hc

theorem invB_sender_detached_empty (s : shared_state) (hB : InvB s)
    (h : s.state_ = empty) (hsd : s.sender_done = false)
    (hf : s.free_count = 0) : InvB s.sender_detached := by
  obtain ⟨nn, sn, nr, sr, cle, clivt, clivf, csend, fliv, lctl, wlt, cwait,
    rok, pend⟩ := hB
  have hrd : s.receiver_done = false := by
    cases hrdc : s.receiver_done with
    | false => rfl
    | true => exact absurd (h.symm.trans (nr hsd hrdc).1) (by decide)
  have hlv : s.value_live = false := by
    cases hvl : s.value_live with
    | false => rfl
    | true =>
        rcases (lctl hf).mp hvl with hx | hx <;>
          exact absurd (h.symm.trans hx) (by decide)
  rw [sender_detached_other_eq s (by rw [h]; decide) (by rw [h]; decide)]
  refine ⟨?_, ?_, ?_, ?_, ?_, ?_, ?_, ?_, ?_, ?_, ?_, ?_, ?_, ?_⟩
  · exact fun h2 _ => Bool.noConfusion h2
  · exact fun _ _ => ⟨Or.inr (Or.inr rfl), hf⟩
  · exact fun h2 _ => Bool.noConfusion h2
  · exact fun _ h2 => absurd (hrd.symm.trans h2) (by decide)
  · exact cle
  · exact clivt
  · exact clivf
  · exact fun h2 => Bool.noConfusion h2
  · intro h1
    exact absurd (hf.symm.trans h1) (by decide)
  · intro _
    simp [hlv]
  · exact wlt
  · intro hc
    rcases hc with hc | hc <;> simp at hc
  · exact rok
  · intro hc
    simp at hc

theorem invB_sender_detached_waiting (s : shared_state) (hB : InvB s)
    (h : s.state_ = waiting) (hsd : s.sender_done = false)
    (hf : s.free_count = 0) : InvB s.sender_detached := by
  obtain ⟨nn, sn, nr, sr, cle, clivt, clivf, csend, fliv, lctl, wlt, cwait,
    rok, pend⟩ := hB
  have hws : s.wait_op_.isSome = true := cwait (Or.inl h)
  obtain ⟨i, hw⟩ : ∃ i, s.wait_op_ = some i := by
    cases hww : s.wait_op_ with
    | none => rw [hww] at hws; cases hws
    | some i => exact ⟨i, rfl⟩
  have hrd : s.receiver_done = false := by
    cases hrdc : s.receiver_done with
    | false => rfl
    | true => exact absurd (h.symm.trans (nr hsd hrdc).1) (by decide)
  have hlv : s.value_live = false := by
    cases hvl : s.value_live with
    | false => rfl
    | true =>
        rcases (lctl hf).mp hvl with hx | hx <;>
          exact absurd (h.symm.trans hx) (by decide)
  rw [sender_detached_waiting_eq s i h hw]
  refine ⟨?_, ?_, ?_, ?_, ?_, ?_, ?_, ?_, ?_, ?_, ?_, ?_, ?_, ?_⟩
  · exact fun h2 _ => Bool.noConfusion h2
  · exact fun _ _ => ⟨Or.inr (Or.inr rfl), hf⟩
  · exact fun h2 _ => Bool.noConfusion h2
  · exact fun _ h2 => absurd (hrd.symm.trans h2) (by decide)
  · exact cle
  · exact clivt
  · exact clivf
  · exact fun h2 => Bool.noConfusion h2
  · intro h1
    exact absurd (hf.symm.trans h1) (by decide)
  · intro _
    simp [hlv]
  · intro k hk
    show k < (modifyAt (appendOutcome Outcome.brokenSender) s.regs i).length
    rw [modifyAt_length]
    exact wlt k hk
  · intro hc
    rcases hc with hc | hc <;> simp at hc
  · exact regOutcomesOK_complete s.regs i Outcome.brokenSender
      (Or.inr (Or.inr (Or.inl rfl))) rok (pend h i hw)
  · intro hc
    simp at hc

theorem invB_sender_detached_detached (s : shared_state) (hB : InvB s)
    (h : s.state_ = detached) (hsd : s.sender_done = false)
    (hf : s.free_count = 0) : InvB s.sender_detached := by
  obtain ⟨nn, sn, nr, sr, cle, clivt, clivf, csend, fliv, lctl, wlt, cwait,
    rok, pend⟩ := hB
  have hrd : s.receiver_done = true := by
    cases hrdc : s.receiver_done with
    | true => rfl
    | false =>
        rcases (nn hsd hrdc).1 with hx | hx <;>
          exact absurd (h.symm.trans hx) (by decide)
  have hlv : s.value_live = false := by
    cases hvl : s.value_live with
    | false => rfl
    | true =>
        rcases (lctl hf).mp hvl with hx | hx <;>
          exact absurd (h.symm.trans hx) (by decide)
  rw [sender_detached_detached_eq s h]
  refine ⟨?_, ?_, ?_, ?_, ?_, ?_, ?_, ?_, ?_, ?_, ?_, ?_, ?_, ?_⟩
  · exact fun h2 _ => Bool.noConfusion h2
  · exact fun _ h2 => absurd (hrd.symm.trans h2) (by decide)
  · exact fun h2 _ => Bool.noConfusion h2
  · refine fun _ _ => ⟨Or.inl rfl, ?_⟩
    show s.free_count + 1 = 1
    omega
  · exact cle
  · exact clivt
  · exact clivf
  · exact fun h2 => Bool.noConfusion h2
  · exact fun _ => hlv
  · intro h2
    have h3 : s.free_count + 1 = 0 := h2
    exact absurd h3 (by omega)
  · exact wlt
  · intro hc
    rcases hc with hc | hc <;> simp at hc
  · exact rok
  · intro hc
    simp at hc

theorem invB_async_wait_dup (s : shared_state) (b : Bool) (j : Nat)
    (hB : InvB s) (hw : s.wait_op_ = some j) : InvB (s.async_wait b) := by
  obtain ⟨nn, sn, nr, sr, cle, clivt, clivf, csend, fliv, lctl, wlt, cwait,
    rok, pend⟩ := hB
  rw [async_wait_dup_eq s b j hw]
  refine ⟨nn, sn, nr, sr, cle, clivt, clivf, csend, fliv, lctl, ?_, cwait,
    ?_, ?_⟩
  · intro k hk
    have := wlt k hk
    show k < (s.regs ++ [appendOutcome Outcome.duplicateWait (newReg b)]).length
    simp
    omega
  · exact regOutcomesOK_append s.regs _ rok
      (regOutcomesOK_newReg_out b Outcome.duplicateWait
        (Or.inr (Or.inr (Or.inr rfl))))
  · intro hc i2 hw2 r hr
    have hlt : i2 < s.regs.length := wlt i2 hw2
    rw [getElem?_append_lt s.regs _ i2 hlt] at hr
    exact pend hc i2 hw2 r hr

theorem invB_async_wait_empty (s : shared_state) (b : Bool) (hB : InvB s)
    (hw : s.wait_op_ = none) (h : s.state_ = empty)
    (hrd : s.receiver_done = false) (hf : s.free_count = 0) :
    InvB (s.async_wait b) := by
  obtain ⟨nn, sn, nr, sr, cle, clivt, clivf, csend, fliv, lctl, wlt, cwait,
    rok, pend⟩ := hB
  have hsd : s.sender_done = false := by
    cases hsdc : s.sender_done with
    | false => rfl
    | true =>
        rcases (sn hsdc hrd).1 with hx | hx | hx <;>
          exact absurd (h.symm.trans hx) (by decide)
  have hlv : s.value_live = false := by
    cases hvl : s.value_live with
    | false => rfl
    | true =>
        rcases (lctl hf).mp hvl with hx | hx <;>
          exact absurd (h.symm.trans hx) (by decide)
  rw [async_wait_empty_eq s b hw h]
  refine ⟨?_, ?_, ?_, ?_, cle, clivt, clivf, ?_, ?_, ?_, ?_, ?_, ?_, ?_⟩
  · exact fun _ _ => ⟨Or.inr rfl, hf⟩
  · exact fun h2 _ => absurd (hsd.symm.trans h2) (by decide)
  · exact fun _ h2 => absurd (hrd.symm.trans h2) (by decide)
  · exact fun h2 _ => absurd (hsd.symm.trans h2) (by decide)
  · exact fun _ => csend hsd
  · intro h1
    exact absurd (hf.symm.trans h1) (by decide)
  · intro _
    simp [hlv]
  · intro k hk
    have hk2 : s.regs.length = k := Option.some.inj hk
    show k < (s.regs ++ [newReg b]).length
    rw [← hk2]
    simp
  · exact fun _ => rfl
  · exact regOutcomesOK_append s.regs _ rok (regOutcomesOK_newReg b)
  · intro _ i2 hw2 r hr
    have hi2 : s.regs.length = i2 := Option.some.inj hw2
    rw [← hi2] at hr
    rw [getElem?_append_length] at hr
    have hrr := Option.some.inj hr
    rw [← hrr]
    rfl

theorem invB_async_wait_engaged (s : shared_state) (b : Bool) (hB : InvB s)
    (hw : s.wait_op_ = none) (h : s.state_ = engaged)
    (hrd : s.receiver_done = false) (hf : s.free_count = 0) :
    InvB (s.async_wait b) := by
  obtain ⟨nn, sn, nr, sr, cle, clivt, clivf, csend, fliv, lctl, wlt, cwait,
    rok, pend⟩ := hB
  have hsd : s.sender_done = true := by
    cases hsdc : s.sender_done with
    | true => rfl
    | false =>
        rcases (nn hsdc hrd).1 with hx | hx <;>
          exact absurd (h.symm.trans hx) (by decide)
  have hlv : s.value_live = true := (lctl hf).mpr (Or.inl h)
  rw [async_wait_engaged_eq s b hw h]
  refine ⟨?_, ?_, ?_, ?_, cle, clivt, clivf, ?_, ?_, ?_, ?_, ?_, ?_, ?_⟩
  · exact fun h2 _ => absurd (hsd.symm.trans h2) (by decide)
  · exact fun _ _ => ⟨Or.inl rfl, hf⟩
  · exact fun h2 _ => absurd (hsd.symm.trans h2) (by decide)
  · exact fun _ h2 => absurd (hrd.symm.trans h2) (by decide)
  · exact fun h2 => absurd (hsd.symm.trans h2) (by decide)
  · intro h1
    exact absurd (hf.symm.trans h1) (by decide)
  · intro _
    simp [hlv]
  · intro k hk
    have hk2 : s.regs.length = k := Option.some.inj hk
    show k < (s.regs ++ [appendOutcome Outcome.success (newReg b)]).length
    rw [← hk2]
    simp
  · intro hc
    rcases hc with hc | hc <;> simp at hc
  · exact regOutcomesOK_append s.regs _ rok
      (regOutcomesOK_newReg_out b Outcome.success (Or.inl rfl))
  · intro hc
    simp at hc

theorem invB_async_wait_detached (s : shared_state) (b : Bool) (hB : InvB s)
    (hw : s.wait_op_ = none) (h : s.state_ = detached)
    (hrd : s.receiver_done = false) (hf : s.free_count = 0) :
    InvB (s.async_wait b) := by
  obtain ⟨nn, sn, nr, sr, cle, clivt, clivf, csend, fliv, lctl, wlt, cwait,
    rok, pend⟩ := hB
  have hsd : s.sender_done = true := by
    cases hsdc : s.sender_done with
    | true => rfl
    | false =>
        rcases (nn hsdc hrd).1 with hx | hx <;>
          exact absurd (h.symm.trans hx) (by decide)
  have hlv : s.value_live = false := by
    cases hvl : s.value_live with
    | false => rfl
    | true =>
        rcases (lctl hf).mp hvl with hx | hx <;>
          exact absurd (h.symm.trans hx) (by decide)
  rw [async_wait_detached_eq s b hw h]
  refine ⟨?_, ?_, ?_, ?_, cle, clivt, clivf, ?_, ?_, ?_, ?_, ?_, ?_, ?_⟩
  · exact fun h2 _ => absurd (hsd.symm.trans h2) (by decide)
  · exact fun _ _ => ⟨Or.inr (Or.inr rfl), hf⟩
  · exact fun h2 _ => absurd (hsd.symm.trans h2) (by decide)
  · exact fun _ h2 => absurd (hrd.symm.trans h2) (by decide)
  · exact fun h2 => absurd (hsd.symm.trans h2) (by decide)
  · intro h1
    exact absurd (hf.symm.trans h1) (by decide)
  · intro _
    simp [hlv]
  · intro k hk
    have hk2 : s.regs.length = k := Option.some.inj hk
    show k < (s.regs ++ [appendOutcome Outcome.brokenSender (newReg b)]).length
    rw [← hk2]
    simp
  · intro hc
    rcases hc with hc | hc <;> simp at hc
  · exact regOutcomesOK_append s.regs _ rok
      (regOutcomesOK_newReg_out b Outcome.brokenSender
        (Or.inr (Or.inr (Or.inl rfl))))
  · intro hc
    simp at hc

theorem invB_cancel_waiting (s : shared_state) (hB : InvB s)
    (h : s.state_ = waiting) (hf : s.free_count = 0) :
    InvB s.cancel_handler := by
  obtain ⟨nn, sn, nr, sr, cle, clivt, clivf, csend, fliv, lctl, wlt, cwait,
    rok, pend⟩ := hB
  have hws : s.wait_op_.isSome = true := cwait (Or.inl h)
  obtain ⟨i, hw⟩ : ∃ i, s.wait_op_ = some i := by
    cases hww : s.wait_op_ with
    | none => rw [hww] at hws; cases hws
    | some i => exact ⟨i, rfl⟩
  have hsd : s.sender_done = false := by
    cases hsdc : s.sender_done with
    | false => rfl
    | true =>
        cases hrdc : s.receiver_done with
        | false =>
            rcases (sn hsdc hrdc).1 with hx | hx | hx <;>
              exact absurd (h.symm.trans hx) (by decide)
        | true => exact absurd (hf.symm.trans (sr hsdc hrdc).2) (by decide)
  have hrd : s.receiver_done = false := by
    cases hrdc : s.receiver_done with
    | false => rfl
    | true =>
        cases hsdc : s.sender_done with
        | false => exact absurd (h.symm.trans (nr hsdc hrdc).1) (by decide)
        | true => exact absurd (hf.symm.trans (sr hsdc hrdc).2) (by decide)
  have hlv : s.value_live = false := by
    cases hvl : s.value_live with
    | false => rfl
    | true =>
        rcases (lctl hf).mp hvl with hx | hx <;>
          exact absurd (h.symm.trans hx) (by decide)
  rw [cancel_waiting_eq s i h hw]
  refine ⟨?_, ?_, ?_, ?_, cle, clivt, clivf, ?_, ?_, ?_, ?_, ?_, ?_, ?_⟩
  · exact fun _ _ => ⟨Or.inl rfl, hf⟩
  · exact fun h2 _ => absurd (hsd.symm.trans h2) (by decide)
  · exact fun _ h2 => absurd (hrd.symm.trans h2) (by decide)
  · exact fun h2 _ => absurd (hsd.symm.trans h2) (by decide)
  · exact fun _ => csend hsd
  · intro h1
    exact absurd (hf.symm.trans h1) (by decide)
  · intro _
    simp [hlv]
  · exact fun k hk => Option.noConfusion hk
  · intro hc
    rcases hc with hc | hc <;> simp at hc
  · exact regOutcomesOK_complete s.regs i Outcome.cancelled
      (Or.inr (Or.inl rfl)) rok (pend h i hw)
  · intro hc
    simp at hc

theorem invB_cancel_other (s : shared_state) (hB : InvB s)
    (h : s.state_ ≠ waiting) : InvB s.cancel_handler := by
  rw [cancel_other_eq s h]
  exact hB

theorem invB_receiver_detached_mark (s : shared_state) (hB : InvB s)
    (h : s.state_ = empty ∨ s.state_ = waiting)
    (hrd : s.receiver_done = false) (hf : s.free_count = 0) :
    InvB s.receiver_detached := by
  obtain ⟨nn, sn, nr, sr, cle, clivt, clivf, csend, fliv, lctl, wlt, cwait,
    rok, pend⟩ := hB
  have hsd : s.sender_done = false := by
    cases hsdc : s.sender_done with
    | false => rfl
    | true =>
        rcases (sn hsdc hrd).1 with hx | hx | hx <;> rcases h with h | h <;>
          exact absurd (h.symm.trans hx) (by decide)
  have hlv : s.value_live = false := by
    cases hvl : s.value_live with
    | false => rfl
    | true =>
        rcases (lctl hf).mp hvl with hx | hx <;> rcases h with h | h <;>
          exact absurd (h.symm.trans hx) (by decide)
  have heq : s.receiver_detached =
      { s with state_ := detached, receiver_done := true } := by
    rcases h with h | h <;>
      exact receiver_detached_mark_eq s (by rw [h]; decide) (by rw [h]; decide)
        (by rw [h]; decide)
  rw [heq]
  refine ⟨?_, ?_, ?_, ?_, cle, clivt, clivf, ?_, ?_, ?_, wlt, ?_, rok, ?_⟩
  · exact fun _ h2 => Bool.noConfusion h2
  · exact fun _ h2 => Bool.noConfusion h2
  · exact fun _ _ => ⟨rfl, hf⟩
  · exact fun h2 _ => absurd (hsd.symm.trans h2) (by decide)
  · exact fun _ => csend hsd
  · intro h1
    exact absurd (hf.symm.trans h1) (by decide)
  · intro _
    simp [hlv]
  · intro hc
    rcases hc with hc | hc <;> simp at hc
  · intro hc
    simp at hc

theorem invB_receiver_detached_value (s : shared_state) (hB : InvB s)
    (h : s.state_ = engaged ∨ s.state_ = sent)
    (hrd : s.receiver_done = false) (hf : s.free_count = 0) :
    InvB s.receiver_detached := by
  obtain ⟨nn, sn, nr, sr, cle, clivt, clivf, csend, fliv, lctl, wlt, cwait,
    rok, pend⟩ := hB
  have hsd : s.sender_done = true := by
    cases hsdc : s.sender_done with
    | true => rfl
    | false =>
        rcases (nn hsdc hrd).1 with hx | hx <;> rcases h with h | h <;>
          exact absurd (h.symm.trans hx) (by decide)
  have hlv : s.value_live = true := (lctl hf).mpr h
  rw [receiver_detached_value_eq s h]
  refine ⟨?_, ?_, ?_, ?_, cle, ?_, ?_, ?_, ?_, ?_, wlt, ?_, rok, ?_⟩
  · exact fun _ h2 => Bool.noConfusion h2
  · exact fun _ h2 => Bool.noConfusion h2
  · exact fun h2 _ => absurd (hsd.symm.trans h2) (by decide)
  · refine fun _ _ => ⟨Or.inl rfl, ?_⟩
    show s.free_count + 1 = 1
    omega
  · exact fun h2 => Bool.noConfusion h2
  · intro _
    show s.construct_count = s.destroy_count + 1
    exact clivt hlv
  · exact fun h2 => absurd (hsd.symm.trans h2) (by decide)
  · exact fun _ => rfl
  · intro h2
    have h3 : s.free_count + 1 = 0 := h2
    exact absurd h3 (by omega)
  · intro hc
    rcases hc with hc | hc <;> simp at hc
  · intro hc
    simp at hc

theorem invB_receiver_detached_detached (s : shared_state) (hB : InvB s)
    (h : s.state_ = detached) (hrd : s.receiver_done = false)
    (hf : s.free_count = 0) : InvB s.receiver_detached := by
  obtain ⟨nn, sn, nr, sr, cle, clivt, clivf, csend, fliv, lctl, wlt, cwait,
    rok, pend⟩ := hB
  have hsd : s.sender_done = true := by
    cases hsdc : s.sender_done with
    | true => rfl
    | false =>
        rcases (nn hsdc hrd).1 with hx | hx <;>
          exact absurd (h.symm.trans hx) (by decide)
  have hlv : s.value_live = false := by
    cases hvl : s.value_live with
    | false => rfl
    | true =>
        rcases (lctl hf).mp hvl with hx | hx <;>
          exact absurd (h.symm.trans hx) (by decide)
  rw [receiver_detached_detached_eq s h]
  refine ⟨?_, ?_, ?_, ?_, cle, clivt, clivf, ?_, ?_, ?_, wlt, ?_, rok, ?_⟩
  · exact fun _ h2 => Bool.noConfusion h2
  · exact fun _ h2 => Bool.noConfusion h2
  · exact fun h2 _ => absurd (hsd.symm.trans h2) (by decide)
  · refine fun _ _ => ⟨Or.inl rfl, ?_⟩
    show s.free_count + 1 = 1
    omega
  · exact fun h2 => absurd (hsd.symm.trans h2) (by decide)
  · exact fun _ => hlv
  · intro h2
    have h3 : s.free_count + 1 = 0 := h2
    exact absurd h3 (by omega)
  · intro hc
    rcases hc with hc | hc <;> simp at hc
  · intro hc
    simp at hc

theorem invB_deliver (s : shared_state) (i : Nat) (hB : InvB s) :
    InvB (s.deliver i) := by
  obtain ⟨nn, sn, nr, sr, cle, clivt, clivf, csend, fliv, lctl, wlt, cwait,
    rok, pend⟩ := hB
  refine ⟨nn, sn, nr, sr, cle, clivt, clivf, csend, fliv, lctl, ?_, cwait,
    ?_, ?_⟩
  · intro k hk
    show k < (modifyAt deliverReg s.regs i).length
    rw [modifyAt_length]
    exact wlt k hk
  · exact regOutcomesOK_deliver s.regs i rok
  · intro hc i2 hw2 r hr
    show r.completions = []
    by_cases hki : i2 = i
    · subst hki
      have hr2 : (modifyAt deliverReg s.regs i2)[i2]? = some r := hr
      rw [modifyAt_getElem?_self] at hr2
      cases hl : s.regs[i2]? with
      | none => rw [hl] at hr2; cases hr2
      | some r0 =>
          rw [hl] at hr2
          have hrr : r = deliverReg r0 := (Option.some.inj hr2).symm
          rw [hrr]
          show r0.completions = []
          exact pend hc i2 hw2 r0 hl
    · have hr2 : (modifyAt deliverReg s.regs i)[i2]? = some r := hr
      rw [modifyAt_getElem?_ne deliverReg s.regs i i2 hki] at hr2
      exact pend hc i2 hw2 r hr2

theorem invB_applyAct (s : shared_state) (a : Act) (hB : InvB s)
    (he : enabled s a = true) : InvB (applyAct s a) := by
  cases a with
  | send v =>
      simp only [enabled, Bool.and_eq_true, Bool.not_eq_true', beq_iff_eq]
        at he
      obtain ⟨hsd, hf⟩ := he
      cases hrdc : s.receiver_done with
      | false =>
          rcases (hB.shape_nn hsd hrdc).1 with h | h
          · exact invB_send_empty s v hB h hsd hf
          · exact invB_send_waiting s v hB h hsd hf
      | true => exact invB_send_detached s v hB (hB.shape_nr hsd hrdc).1 hsd hf
  | senderDetach =>
      simp only [enabled, Bool.and_eq_true, Bool.not_eq_true', beq_iff_eq]
        at he
      obtain ⟨hsd, hf⟩ := he
      cases hrdc : s.receiver_done with
      | false =>
          rcases (hB.shape_nn hsd hrdc).1 with h | h
          · exact invB_sender_detached_empty s hB h hsd hf
          · exact invB_sender_detached_waiting s hB h hsd hf
      | true =>
          exact invB_sender_detached_detached s hB (hB.shape_nr hsd hrdc).1
            hsd hf
  | registerWait b =>
      simp only [enabled, Bool.and_eq_true, Bool.not_eq_true', beq_iff_eq]
        at he
      obtain ⟨hrd, hf⟩ := he
      cases hww : s.wait_op_ with
      | some j => exact invB_async_wait_dup s b j hB hww
      | none =>
          cases hsdc : s.sender_done with
          | false =>
              rcases (hB.shape_nn hsdc hrd).1 with h | h
              · exact invB_async_wait_empty s b hB hww h hrd hf
              · have := hB.ctl_wait (Or.inl h)
                rw [hww] at this
                cases this
          | true =>
              rcases (hB.shape_sn hsdc hrd).1 with h | h | h
              · exact invB_async_wait_engaged s b hB hww h hrd hf
              · have := hB.ctl_wait (Or.inr h)
                rw [hww] at this
                cases this
              · exact invB_async_wait_detached s b hB hww h hrd hf
  | cancel j =>
      simp only [enabled, Bool.and_eq_true, beq_iff_eq] at he
      by_cases h2 : s.state_ = waiting
      · exact invB_cancel_waiting s hB h2 he.1
      · exact invB_cancel_other s hB h2
  | receiverDetach =>
      simp only [enabled, Bool.and_eq_true, Bool.not_eq_true', beq_iff_eq]
        at he
      obtain ⟨hrd, hf⟩ := he
      cases hsdc : s.sender_done with
      | false =>
          rcases (hB.shape_nn hsdc hrd).1 with h | h
          · exact invB_receiver_detached_mark s hB (Or.inl h) hrd hf
          · exact invB_receiver_detached_mark s hB (Or.inr h) hrd hf
      | true =>
          rcases (hB.shape_sn hsdc hrd).1 with h | h | h
          · exact invB_receiver_detached_value s hB (Or.inl h) hrd hf
          · exact invB_receiver_detached_value s hB (Or.inr h) hrd hf
          · exact invB_receiver_detached_detached s hB h hrd hf
  | deliver j => exact invB_deliver s j hB

theorem invB_run (s : shared_state) (as : List Act) (hB : InvB s)
    (hv : validFrom s as = true) : InvB (run s as) := by
  induction as generalizing s with
  | nil => exact hB
  | cons a rest ih =>
      simp only [validFrom, Bool.and_eq_true] at hv
      exact ih (applyAct s a) (invB_applyAct s a hB hv.1) hv.2

theorem invB_reachable (s : shared_state) (h : reachable s) : InvB s := by
  obtain ⟨as, hv, hr⟩ := h
  rw [← hr]
  exact invB_run shared_state.init as invB_init hv

theorem uncompleted_complete_pending (s : shared_state) (i : Nat)
    (out : Outcome) (hw : s.wait_op_ = some i)
    (hU : uncompletedPending s) :
    ∀ (k : Nat) (r : Reg),
      (modifyAt (appendOutcome out) s.regs i)[k]? = some r →
      r.completions = [] → False := by
  intro k r hk hempty
  by_cases hki : k = i
  · subst hki
    rw [modifyAt_getElem?_self] at hk
    cases hl : s.regs[k]? with
    | none => rw [hl] at hk; cases hk
    | some r0 =>
        rw [hl] at hk
        have hrr : r = appendOutcome out r0 := (Option.some.inj hk).symm
        rw [hrr] at hempty
        simp [appendOutcome] at hempty
  · rw [modifyAt_getElem?_ne (appendOutcome out) s.regs i k hki] at hk
    have h3 := hU k r hk hempty
    exact absurd (Option.some.inj (hw.symm.trans h3.1)).symm hki

theorem uncompleted_applyAct (s : shared_state) (a : Act) (hB : InvB s)
    (hU : uncompletedPending s) (he : enabled s a = true)
    (hsafe : safeAct s a = true) : uncompletedPending (applyAct s a) := by
  cases a with
  | send v =>
      simp only [enabled, Bool.and_eq_true, Bool.not_eq_true', beq_iff_eq]
        at he
      obtain ⟨hsd, hf⟩ := he
      show uncompletedPending (s.send v)
      cases hrdc : s.receiver_done with
      | false =>
          rcases (hB.shape_nn hsd hrdc).1 with h | h
          · rw [send_empty_eq s v h]
            intro k r hk hempty
            exact absurd (h.symm.trans (hU k r hk hempty).2) (by decide)
          · have hws : s.wait_op_.isSome = true := hB.ctl_wait (Or.inl h)
            obtain ⟨i, hw⟩ : ∃ i, s.wait_op_ = some i := by
              cases hww : s.wait_op_ with
              | none => rw [hww] at hws; cases hws
              | some i => exact ⟨i, rfl⟩
            rw [send_waiting_eq s v i h hw]
            intro k r hk hempty
            exact (uncompleted_complete_pending s i Outcome.success hw hU
              k r hk hempty).elim
      | true =>
          have h := (hB.shape_nr hsd hrdc).1
          rw [send_detached_eq s v h]
          intro k r hk hempty
          exact absurd (h.symm.trans (hU k r hk hempty).2) (by decide)
  | senderDetach =>
      simp only [enabled, Bool.and_eq_true, Bool.not_eq_true', beq_iff_eq]
        at he
      obtain ⟨hsd, hf⟩ := he
      show uncompletedPending s.sender_detached
      cases hrdc : s.receiver_done with
      | false =>
          rcases (hB.shape_nn hsd hrdc).1 with h | h
          · rw [sender_detached_other_eq s (by rw [h]; decide)
              (by rw [h]; decide)]
            intro k r hk hempty
            exact absurd (h.symm.trans (hU k r hk hempty).2) (by decide)
          · have hws : s.wait_op_.isSome = true := hB.ctl_wait (Or.inl h)
            obtain ⟨i, hw⟩ : ∃ i, s.wait_op_ = some i := by
              cases hww : s.wait_op_ with
              | none => rw [hww] at hws; cases hws
              | some i => exact ⟨i, rfl⟩
            rw [sender_detached_waiting_eq s i h hw]
            intro k r hk hempty
            exact (uncompleted_complete_pending s i Outcome.brokenSender
              hw hU k r hk hempty).elim
      | true =>
          have h := (hB.shape_nr hsd hrdc).1
          rw [sender_detached_detached_eq s h]
          intro k r hk hempty
          exact absurd (h.symm.trans (hU k r hk hempty).2) (by decide)
  | registerWait b =>
      simp only [enabled, Bool.and_eq_true, Bool.not_eq_true', beq_iff_eq]
        at he
      obtain ⟨hrd, hf⟩ := he
      show uncompletedPending (s.async_wait b)
      cases hww : s.wait_op_ with
      | some j =>
          rw [async_wait_dup_eq s b j hww]
          intro k r hk hempty
          rcases getElem?_append_cases s.regs _ k r hk with ⟨_, hget⟩ |
            ⟨_, hre⟩
          · exact hU k r hget hempty
          · rw [hre] at hempty
            simp [appendOutcome, newReg] at hempty
      | none =>
          cases hsdc : s.sender_done with
          | false =>
              rcases (hB.shape_nn hsdc hrd).1 with h | h
              · rw [async_wait_empty_eq s b hww h]
                intro k r hk hempty
                rcases getElem?_append_cases s.regs _ k r hk with ⟨_, hget⟩ |
                  ⟨hkeq, _⟩
                · exact absurd (h.symm.trans (hU k r hget hempty).2)
                    (by decide)
                · constructor
                  · show some s.regs.length = some k
                    rw [hkeq]
                  · rfl
              · have := hB.ctl_wait (Or.inl h)
                rw [hww] at this
                cases this
          | true =>
              rcases (hB.shape_sn hsdc hrd).1 with h | h | h
              · rw [async_wait_engaged_eq s b hww h]
                intro k r hk hempty
                rcases getElem?_append_cases s.regs _ k r hk with ⟨_, hget⟩ |
                  ⟨_, hre⟩
                · exact absurd (h.symm.trans (hU k r hget hempty).2)
                    (by decide)
                · rw [hre] at hempty
                  simp [appendOutcome, newReg] at hempty
              · have := hB.ctl_wait (Or.inr h)
                rw [hww] at this
                cases this
              · rw [async_wait_detached_eq s b hww h]
                intro k r hk hempty
                rcases getElem?_append_cases s.regs _ k r hk with ⟨_, hget⟩ |
                  ⟨_, hre⟩
                · exact absurd (h.symm.trans (hU k r hget hempty).2)
                    (by decide)
                · rw [hre] at hempty
                  simp [appendOutcome, newReg] at hempty
  | cancel j =>
      show uncompletedPending s.cancel_handler
      by_cases h2 : s.state_ = waiting
      · have hws : s.wait_op_.isSome = true := hB.ctl_wait (Or.inl h2)
        obtain ⟨i, hw⟩ : ∃ i, s.wait_op_ = some i := by
          cases hww : s.wait_op_ with
          | none => rw [hww] at hws; cases hws
          | some i => exact ⟨i, rfl⟩
        rw [cancel_waiting_eq s i h2 hw]
        intro k r hk hempty
        exact (uncompleted_complete_pending s i Outcome.cancelled hw hU
          k r hk hempty).elim
      · rw [cancel_other_eq s h2]
        exact hU
  | receiverDetach =>
      simp only [enabled, Bool.and_eq_true, Bool.not_eq_true', beq_iff_eq]
        at he
      obtain ⟨hrd, hf⟩ := he
      have hstw : s.state_ ≠ waiting := by
        simp only [safeAct, bne_iff_ne, ne_eq] at hsafe
        exact hsafe
      show uncompletedPending s.receiver_detached
      cases hsdc : s.sender_done with
      | false =>
          rcases (hB.shape_nn hsdc hrd).1 with h | h
          · rw [receiver_detached_mark_eq s (by rw [h]; decide)
              (by rw [h]; decide) (by rw [h]; decide)]
            intro k r hk hempty
            exact absurd (hU k r hk hempty).2 hstw
          · exact absurd h hstw
      | true =>
          rcases (hB.shape_sn hsdc hrd).1 with h | h | h
          · rw [receiver_detached_value_eq s (Or.inl h)]
            intro k r hk hempty
            exact absurd (hU k r hk hempty).2 hstw
          · rw [receiver_detached_value_eq s (Or.inr h)]
            intro k r hk hempty
            exact absurd (hU k r hk hempty).2 hstw
          · rw [receiver_detached_detached_eq s h]
            intro k r hk hempty
            exact absurd (hU k r hk hempty).2 hstw
  | deliver j =>
      show uncompletedPending (s.deliver j)
      intro k r hk hempty
      by_cases hkj : k = j
      · subst hkj
        have hk2 : (modifyAt deliverReg s.regs k)[k]? = some r := hk
        rw [modifyAt_getElem?_self] at hk2
        cases hl : s.regs[k]? with
        | none => rw [hl] at hk2; cases hk2
        | some r0 =>
            rw [hl] at hk2
            have hrr : r = deliverReg r0 := (Option.some.inj hk2).symm
            have hempty0 : r0.completions = [] := by
              rw [hrr] at hempty
              exact hempty
            exact hU k r0 hl hempty0
      · have hk2 : (modifyAt deliverReg s.regs j)[k]? = some r := hk
        rw [modifyAt_getElem?_ne deliverReg s.regs j k hkj] at hk2
        exact hU k r hk2 hempty

theorem invS_applyAct (s : shared_state) (a : Act) (hS : InvS s)
    (he : enabled s a = true) (hsafe : safeAct s a = true) :
    InvS (applyAct s a) :=
  ⟨invB_applyAct s a hS.1 he, uncompleted_applyAct s a hS.1 hS.2 he hsafe⟩

theorem invS_run (s : shared_state) (as : List Act) (hS : InvS s)
    (hv : safeFrom s as = true) : InvS (run s as) := by
  induction as generalizing s with
  | nil => exact hS
  | cons a rest ih =>
      simp only [safeFrom, Bool.and_eq_true] at hv
      exact ih (applyAct s a)
        (invS_applyAct s a hS hv.1.1 hv.1.2) hv.2

theorem invS_init : InvS shared_state.init := by
  refine ⟨invB_init, ?_⟩
  intro i r hr
  simp [shared_state.init] at hr

theorem free_count_mono_applyAct (s : shared_state) (a : Act) :
    s.free_count ≤ (applyAct s a).free_count := by
  cases a
  all_goals
    simp only [applyAct, shared_state.send, shared_state.sender_detached,
      shared_state.async_wait, shared_state.cancel_handler,
      shared_state.receiver_detached, shared_state.deliver]
  all_goals repeat' split
  all_goals first
    | exact Nat.le_refl _
    | exact Nat.le_succ _

theorem free_count_mono_run (s : shared_state) (as : List Act) :
    s.free_count ≤ (run s as).free_count := by
  induction as generalizing s with
  | nil => exact Nat.le_refl _
  | cons a rest ih =>
      exact Nat.le_trans (free_count_mono_applyAct s a) (ih (applyAct s a))

theorem send_live (s : shared_state) (v : Nat)
    (h : (s.send v).free_count = 0) : (s.send v).value_live = true := by
  by_cases h4 : s.state_ = detached
  · rw [send_detached_eq s v h4] at h
    have h3 : s.free_count + 1 = 0 := h
    exact absurd h3 (by omega)
  · simp only [shared_state.send, h4]
    repeat' split
    all_goals first
      | rfl
      | contradiction

theorem sender_detached_live (s : shared_state) :
    s.sender_detached.value_live = s.value_live := by
  simp only [shared_state.sender_detached]
  repeat' split
  all_goals rfl

theorem async_wait_live (s : shared_state) (b : Bool) :
    (s.async_wait b).value_live = s.value_live := by
  simp only [shared_state.async_wait]
  repeat' split
  all_goals rfl

theorem cancel_handler_live (s : shared_state) :
    s.cancel_handler.value_live = s.value_live := by
  simp only [shared_state.cancel_handler]
  repeat' split
  all_goals rfl

theorem receiver_detached_live (s : shared_state)
    (h : s.receiver_detached.free_count = 0) :
    s.receiver_detached.value_live = s.value_live := by
  by_cases h4 : s.state_ = detached
  · rw [receiver_detached_detached_eq s h4] at h
    have h3 : s.free_count + 1 = 0 := h
    exact absurd h3 (by omega)
  · by_cases hv : s.state_ = engaged ∨ s.state_ = sent
    · rw [receiver_detached_value_eq s hv] at h
      have h3 : s.free_count + 1 = 0 := h
      exact absurd h3 (by omega)
    · rw [receiver_detached_mark_eq s (fun hc => hv (Or.inl hc))
        (fun hc => hv (Or.inr hc)) h4]

theorem value_live_mono_applyAct (s : shared_state) (a : Act)
    (hlv : s.value_live = true) (hf : (applyAct s a).free_count = 0) :
    (applyAct s a).value_live = true := by
  cases a with
  | send v => exact send_live s v hf
  | senderDetach =>
      show s.sender_detached.value_live = true
      rw [sender_detached_live]
      exact hlv
  | registerWait b =>
      show (s.async_wait b).value_live = true
      rw [async_wait_live]
      exact hlv
  | cancel j =>
      show s.cancel_handler.value_live = true
      rw [cancel_handler_live]
      exact hlv
  | receiverDetach =>
      show s.receiver_detached.value_live = true
      rw [receiver_detached_live s hf]
      exact hlv
  | deliver j => exact hlv

theorem value_live_mono_run (s : shared_state) (as : List Act)
    (hlv : s.value_live = true) (hf : (run s as).free_count = 0) :
    (run s as).value_live = true := by
  induction as generalizing s with
  | nil => exact hlv
  | cons a rest ih =>
      have hf0 : (run (applyAct s a) rest).free_count = 0 := hf
      have hf1 : (applyAct s a).free_count = 0 := by
        have := free_count_mono_run (applyAct s a) rest
        omega
      exact ih (applyAct s a) (value_live_mono_applyAct s a hlv hf1) hf

theorem is_ready_iff (s : shared_state) :
    s.is_ready = true ↔ (s.state_ = engaged ∨ s.state_ = sent) := by
  simp only [shared_state.is_ready, Bool.or_eq_true, beq_iff_eq]
  exact Or.comm

theorem invB_free_cases (s : shared_state) (hB : InvB s) :
    s.free_count = 0 ∨
    (s.free_count = 1 ∧ (s.state_ = detached ∨ s.state_ = 5) ∧
      s.value_live = false) := by
  cases hsd : s.sender_done with
  | false =>
      cases hrd : s.receiver_done with
      | false => exact Or.inl (hB.shape_nn hsd hrd).2
      | true => exact Or.inl (hB.shape_nr hsd hrd).2
  | true =>
      cases hrd : s.receiver_done with
      | false => exact Or.inl (hB.shape_sn hsd hrd).2
      | true =>
          have h := hB.shape_sr hsd hrd
          exact Or.inr ⟨h.2, h.1, hB.free_live h.2⟩

theorem invB_is_ready_iff_live (s : shared_state) (hB : InvB s) :
    s.is_ready = true ↔ s.value_live = true := by
  rcases invB_free_cases s hB with hf | ⟨_, hst, hlv⟩
  · rw [is_ready_iff]
    exact (hB.live_ctl hf).symm
  · rw [is_ready_iff, hlv]
    constructor
    · intro hc
      rcases hst with hst | hst <;> rcases hc with hc | hc <;>
        exact absurd (hst.symm.trans hc) (by decide)
    · intro hc
      cases hc

/-- Claim C1, as stated, is false on the code: the ordering register-wait,
receiver-detach, sender-detach is a sequentialized execution in which each
side performs exactly one terminal action, yet the wait registration that
was created is completed zero times — never completed with any outcome
(the cell itself is still freed exactly once). -/
theorem C1_counterexample :
    validFrom shared_state.init
      [Act.registerWait false, Act.receiverDetach, Act.senderDetach] =
        true ∧
    (run shared_state.init
      [Act.registerWait false, Act.receiverDetach, Act.senderDetach]
      ).sender_done = true ∧
    (run shared_state.init
      [Act.registerWait false, Act.receiverDetach, Act.senderDetach]
      ).receiver_done = true ∧
    (run shared_state.init
      [Act.registerWait false, Act.receiverDetach, Act.senderDetach]
      ).regs = [newReg false] ∧
    (newReg false).completions = [] ∧
    (run shared_state.init
      [Act.registerWait false, Act.receiverDetach, Act.senderDetach]
      ).free_count = 1 := by
  decide

/-- Claim C1 (amended): for every sequentialized ordering of
send/register-wait/cancel/sender-detach/receiver-detach on one shared cell
in which each side performs at most one terminal action *and the receiver
does not detach while the control state is Waiting* (the precondition the
source itself records in the `receiver_detached` comment), once both sides
have performed their terminal action every wait registration that was
created has been completed exactly once, with exactly one of success,
cancelled, broken_sender or duplicate_wait_on_receiver, and the shared
cell's deleter has been invoked exactly once. -/
theorem C1_registration_completed_once (as : List Act)
    (hv : safeFrom shared_state.init as = true)
    (hsd : (run shared_state.init as).sender_done = true)
    (hrd : (run shared_state.init as).receiver_done = true) :
    (∀ (i : Nat) (r : Reg), (run shared_state.init as).regs[i]? = some r →
      r.completions.length = 1 ∧
      ∀ o ∈ r.completions, o = Outcome.success ∨ o = Outcome.cancelled ∨
        o = Outcome.brokenSender ∨ o = Outcome.duplicateWait) ∧
    (run shared_state.init as).free_count = 1 := by
  obtain ⟨hB, hU⟩ := invS_run shared_state.init as invS_init hv
  refine ⟨?_, (hB.shape_sr hsd hrd).2⟩
  intro i r hr
  have hok := hB.regs_ok i r hr
  have hne : ¬r.completions = [] := by
    intro hempty
    have h3 := (hU i r hr hempty).2
    rcases (hB.shape_sr hsd hrd).1 with hx | hx <;>
      exact absurd (hx.symm.trans h3) (by decide)
  refine ⟨?_, hok.2⟩
  have h1 := hok.1
  have h2 : 1 ≤ r.completions.length := by
    cases hcl : r.completions with
    | nil => exact absurd hcl hne
    | cons o os => simp
  omega

/-- Witness for C1: the safe ordering register-wait, send, receiver-detach
ends with both sides done, the single registration completed exactly once
(with success) and the cell freed exactly once. -/
theorem C1_registration_completed_once_witness :
    safeFrom shared_state.init
      [Act.registerWait false, Act.send 7, Act.receiverDetach] = true ∧
    (run shared_state.init
      [Act.registerWait false, Act.send 7, Act.receiverDetach]
      ).free_count = 1 ∧
    (appendOutcome Outcome.success (newReg false)).completions.length = 1 :=
  ⟨by decide,
   (C1_registration_completed_once
     [Act.registerWait false, Act.send 7, Act.receiverDetach] (by decide)
     (by decide) (by decide)).2,
   ((C1_registration_completed_once
     [Act.registerWait false, Act.send 7, Act.receiverDetach] (by decide)
     (by decide) (by decide)).1 0
     (appendOutcome Outcome.success (newReg false)) (by decide)).1⟩

/-- Claim C2: `send(v)` performs a single fetch-and-advance on the control
word: in Empty it constructs the value and moves to Engaged with no
notification (no registration touched, nothing freed); in Waiting it
constructs the value, moves to Sent and completes the registered wait with
success; in Detached it constructs and then immediately destroys the value
and frees the shared cell. -/
theorem C2_send_transitions (s : shared_state) (v : Nat) :
    (s.state_ = empty →
      (s.send v).state_ = engaged ∧ (s.send v).value_live = true ∧
      (s.send v).payload_ = v ∧
      (s.send v).construct_count = s.construct_count + 1 ∧
      (s.send v).regs = s.regs ∧ (s.send v).free_count = s.free_count) ∧
    (∀ (i : Nat) (r : Reg), s.state_ = waiting → s.wait_op_ = some i →
      s.regs[i]? = some r →
      (s.send v).state_ = sent ∧ (s.send v).value_live = true ∧
      (s.send v).payload_ = v ∧
      (s.send v).construct_count = s.construct_count + 1 ∧
      (s.send v).regs[i]? = some (appendOutcome Outcome.success r) ∧
      (∀ j, ¬j = i → (s.send v).regs[j]? = s.regs[j]?) ∧
      (s.send v).free_count = s.free_count) ∧
    (s.state_ = detached →
      (s.send v).construct_count = s.construct_count + 1 ∧
      (s.send v).destroy_count = s.destroy_count + 1 ∧
      (s.send v).value_live = false ∧
      (s.send v).free_count = s.free_count + 1 ∧
      (s.send v).regs = s.regs) := by
  refine ⟨fun h => ?_, fun i r h hw hr => ?_, fun h => ?_⟩
  · rw [send_empty_eq s v h]
    exact ⟨rfl, rfl, rfl, rfl, rfl, rfl⟩
  · rw [send_waiting_eq s v i h hw]
    refine ⟨rfl, rfl, rfl, rfl, ?_, ?_, rfl⟩
    · show (modifyAt (appendOutcome Outcome.success) s.regs i)[i]? = _
      rw [modifyAt_getElem?_self, hr]
      rfl
    · intro j hj
      exact modifyAt_getElem?_ne _ _ _ _ hj
  · rw [send_detached_eq s v h]
    exact ⟨rfl, rfl, rfl, rfl, rfl⟩

/-- Witness for C2 at three concrete pre-states: right after creation
(Empty), after a wait registration (Waiting), and after receiver detach
(Detached). -/
theorem C2_send_transitions_witness :
    shared_state.init.state_ = empty ∧
    (shared_state.init.send 7).state_ = engaged ∧
    (shared_state.init.async_wait false).state_ = waiting ∧
    ((shared_state.init.async_wait false).send 7).state_ = sent ∧
    shared_state.init.receiver_detached.state_ = detached ∧
    (shared_state.init.receiver_detached.send 7).free_count =
      shared_state.init.receiver_detached.free_count + 1 :=
  ⟨by decide,
   ((C2_send_transitions shared_state.init 7).1 (by decide)).1,
   by decide,
   ((C2_send_transitions (shared_state.init.async_wait false) 7).2.1 0
     (newReg false) (by decide) (by decide) (by decide)).1,
   by decide,
   ((C2_send_transitions shared_state.init.receiver_detached 7).2.2
     (by decide)).2.2.2.1⟩

/-- Claim C3, as stated, is false on the code: `sender_detached` invoked
in state Waiting leaves the control word Detached — it does not restore
Empty as the spec table says (restoring Empty would leak the cell, since
the receiver's eventual detach must observe Detached in order to free
it). -/
theorem C3_counterexample :
    (shared_state.init.async_wait false).state_ = waiting ∧
    (shared_state.init.async_wait false).sender_detached.state_ =
      detached ∧
    ¬(shared_state.init.async_wait false).sender_detached.state_ =
      empty := by
  decide

/-- Claim C3 (amended): sender-detach performed while the control state is
Waiting results in control state Detached (not Empty restored) and
completes the registered wait with broken_sender, leaving all other
registrations untouched and not freeing the cell. -/
theorem C3_sender_detach_waiting (s : shared_state) (i : Nat) (r : Reg)
    (h : s.state_ = waiting) (hw : s.wait_op_ = some i)
    (hr : s.regs[i]? = some r) :
    s.sender_detached.state_ = detached ∧
    s.sender_detached.regs[i]? =
      some (appendOutcome Outcome.brokenSender r) ∧
    (∀ j, ¬j = i → s.sender_detached.regs[j]? = s.regs[j]?) ∧
    s.sender_detached.free_count = s.free_count := by
  rw [sender_detached_waiting_eq s i h hw]
  refine ⟨rfl, ?_, ?_, rfl⟩
  · show (modifyAt (appendOutcome Outcome.brokenSender) s.regs i)[i]? = _
    rw [modifyAt_getElem?_self, hr]
    rfl
  · intro j hj
    exact modifyAt_getElem?_ne _ _ _ _ hj

/-- Witness for (amended) C3 at the concrete Waiting state right after a
registration. -/
theorem C3_sender_detach_waiting_witness :
    (shared_state.init.async_wait false).state_ = waiting ∧
    (shared_state.init.async_wait false).sender_detached.regs[0]? =
      some (appendOutcome Outcome.brokenSender (newReg false)) :=
  ⟨by decide,
   (C3_sender_detach_waiting (shared_state.init.async_wait false) 0
     (newReg false) (by decide) (by decide) (by decide)).2.1⟩

/-- Claim C4: over the whole life of one shared cell the stored value is
constructed at most once and destroyed at most once, never destroyed
without having been constructed, and at the moment the cell has been freed
every construction has been paired with exactly one destruction. -/
theorem C4_value_lifecycle (as : List Act)
    (hv : validFrom shared_state.init as = true) :
    (run shared_state.init as).construct_count ≤ 1 ∧
    (run shared_state.init as).destroy_count ≤ 1 ∧
    (run shared_state.init as).destroy_count ≤
      (run shared_state.init as).construct_count ∧
    ((run shared_state.init as).free_count = 1 →
      (run shared_state.init as).destroy_count =
        (run shared_state.init as).construct_count) := by
  have hB := invB_run shared_state.init as invB_init hv
  have h1 := hB.cnt_le
  have h2 : (run shared_state.init as).destroy_count ≤
      (run shared_state.init as).construct_count := by
    cases hvl : (run shared_state.init as).value_live with
    | true =>
        have := hB.cnt_live_t hvl
        omega
    | false =>
        have := hB.cnt_live_f hvl
        omega
  refine ⟨h1, by omega, h2, ?_⟩
  intro hf
  have hlv := hB.free_live hf
  have := hB.cnt_live_f hlv
  omega

/-- Witness for C4 on the trace send then receiver-detach, which
constructs once, destroys once and frees the cell. -/
theorem C4_value_lifecycle_witness :
    validFrom shared_state.init [Act.send 7, Act.receiverDetach] = true ∧
    (run shared_state.init [Act.send 7, Act.receiverDetach]).free_count =
      1 ∧
    (run shared_state.init [Act.send 7, Act.receiverDetach]
      ).destroy_count =
      (run shared_state.init [Act.send 7, Act.receiverDetach]
        ).construct_count :=
  ⟨by decide, by decide,
   (C4_value_lifecycle [Act.send 7, Act.receiverDetach] (by decide)).2.2.2
     (by decide)⟩

/-- Claim C5: the cancel callback firing in state Waiting moves the state
to Empty, completes the registered wait with cancelled and clears the
stored wait reference, so that a subsequent send (resp. sender-detach)
observes Empty and moves to Engaged (resp. Detached) with no further
notification; a cancel firing in state Sent or Detached stores the
observed state back and changes nothing at all. -/
theorem C5_cancel_transitions (s : shared_state) (i : Nat) (r : Reg)
    (v : Nat) :
    (s.state_ = waiting → s.wait_op_ = some i → s.regs[i]? = some r →
      s.cancel_handler.state_ = empty ∧
      s.cancel_handler.wait_op_ = none ∧
      s.cancel_handler.regs[i]? =
        some (appendOutcome Outcome.cancelled r) ∧
      (s.cancel_handler.send v).state_ = engaged ∧
      (s.cancel_handler.send v).regs = s.cancel_handler.regs ∧
      s.cancel_handler.sender_detached.state_ = detached ∧
      s.cancel_handler.sender_detached.regs = s.cancel_handler.regs) ∧
    ((s.state_ = sent ∨ s.state_ = detached) → s.cancel_handler = s) := by
  constructor
  · intro h hw hr
    rw [cancel_waiting_eq s i h hw]
    refine ⟨rfl, rfl, ?_, ?_, ?_, ?_, ?_⟩
    · show (modifyAt (appendOutcome Outcome.cancelled) s.regs i)[i]? = _
      rw [modifyAt_getElem?_self, hr]
      rfl
    · rw [send_empty_eq _ v rfl]
    · rw [send_empty_eq _ v rfl]
    · rw [sender_detached_other_eq _ (by simp) (by simp)]
    · rw [sender_detached_other_eq _ (by simp) (by simp)]
  · intro h
    rcases h with h | h <;>
      exact cancel_other_eq s (by rw [h]; decide)

/-- Witness for C5: a cancel in the concrete Waiting state, followed by a
send with no further notification, and a no-op cancel in the concrete
Sent state. -/
theorem C5_cancel_transitions_witness :
    (shared_state.init.async_wait true).state_ = waiting ∧
    (shared_state.init.async_wait true).cancel_handler.wait_op_ = none ∧
    ((shared_state.init.async_wait true).cancel_handler.send 5).regs =
      (shared_state.init.async_wait true).cancel_handler.regs ∧
    (run shared_state.init [Act.registerWait false, Act.send 3]
      ).cancel_handler =
      run shared_state.init [Act.registerWait false, Act.send 3] :=
  ⟨by decide,
   ((C5_cancel_transitions (shared_state.init.async_wait true) 0
     (newReg true) 5).1 (by decide) (by decide) (by decide)).2.1,
   ((C5_cancel_transitions (shared_state.init.async_wait true) 0
     (newReg true) 5).1 (by decide) (by decide) (by decide)).2.2.2.2.1,
   (C5_cancel_transitions
     (run shared_state.init [Act.registerWait false, Act.send 3]) 0
     (newReg false) 0).2 (Or.inl (by decide))⟩

/-- Claim C6: register-wait invoked while another registration is already
stored in `wait_op_` completes the new registration immediately with
duplicate_wait_on_receiver, without installing it (the control word,
`wait_op_` and every previously created registration are unchanged, and
nothing is freed). -/
theorem C6_duplicate_wait (s : shared_state) (b : Bool) (j : Nat)
    (hw : s.wait_op_ = some j) :
    (s.async_wait b).state_ = s.state_ ∧
    (s.async_wait b).wait_op_ = some j ∧
    (s.async_wait b).regs[s.regs.length]? =
      some (appendOutcome Outcome.duplicateWait (newReg b)) ∧
    (∀ k, k < s.regs.length → (s.async_wait b).regs[k]? = s.regs[k]?) ∧
    (s.async_wait b).free_count = s.free_count := by
  rw [async_wait_dup_eq s b j hw]
  refine ⟨rfl, hw, ?_, ?_, rfl⟩
  · exact getElem?_append_length s.regs _
  · intro k hk
    exact getElem?_append_lt s.regs _ k hk

/-- Witness for C6: a second register-wait while the first is still
installed (live) is rejected with duplicate_wait_on_receiver and the first
registration is untouched. -/
theorem C6_duplicate_wait_witness :
    (shared_state.init.async_wait false).wait_op_ = some 0 ∧
    ((shared_state.init.async_wait false).async_wait true
      ).regs[1]? = some (appendOutcome Outcome.duplicateWait (newReg true)) ∧
    ((shared_state.init.async_wait false).async_wait true).regs[0]? =
      (shared_state.init.async_wait false).regs[0]? :=
  ⟨by decide,
   (C6_duplicate_wait (shared_state.init.async_wait false) true 0
     (by decide)).2.2.1,
   (C6_duplicate_wait (shared_state.init.async_wait false) true 0
     (by decide)).2.2.2.1 0 (by decide)⟩

/-- Claim C7: receiver-detach performed while the control state is Waiting
(a registration installed, no value sent) sets the control state to
Detached and neither completes, shuts down, delivers nor frees the
installed wait registration (the whole registration history and
`wait_op_` are unchanged — note `wait_op::shutdown` has no caller anywhere
in the source), and does not free the shared cell. -/
theorem C7_receiver_detach_waiting (s : shared_state)
    (h : s.state_ = waiting) :
    s.receiver_detached.state_ = detached ∧
    s.receiver_detached.regs = s.regs ∧
    s.receiver_detached.wait_op_ = s.wait_op_ ∧
    s.receiver_detached.free_count = s.free_count ∧
    s.receiver_detached.destroy_count = s.destroy_count ∧
    s.receiver_detached.value_live = s.value_live := by
  rw [receiver_detached_mark_eq s (by rw [h]; decide) (by rw [h]; decide)
    (by rw [h]; decide)]
  exact ⟨rfl, rfl, rfl, rfl, rfl, rfl⟩

/-- Witness for C7 at the concrete Waiting state right after a
registration. -/
theorem C7_receiver_detach_waiting_witness :
    (shared_state.init.async_wait true).state_ = waiting ∧
    (shared_state.init.async_wait true).receiver_detached.regs =
      (shared_state.init.async_wait true).regs ∧
    (shared_state.init.async_wait true).receiver_detached.free_count =
      (shared_state.init.async_wait true).free_count :=
  ⟨by decide,
   (C7_receiver_detach_waiting (shared_state.init.async_wait true)
     (by decide)).2.1,
   (C7_receiver_detach_waiting (shared_state.init.async_wait true)
     (by decide)).2.2.2.1⟩

/-- Claim C8: async_extract consumes the receiver and fails with no_state
when the handle is null; otherwise it registers a wait, and on that wait's
completion with `ec`: if `ec` is an error it completes with the same error
and a default-constructed value (no value for void); if `ec` is success it
completes with success and the stored value when one is present, and with
unready and a default-constructed value only when none is. -/
theorem C8_async_extract (s : shared_state) (ec : Outcome) (b : Bool) :
    async_extract_start none b = Except.error Outcome.noState ∧
    async_extract_start (some s) b = Except.ok (s.async_wait b) ∧
    (¬ec = Outcome.success → async_extract_cont s ec = (ec, 0)) ∧
    (∀ v2, ec = Outcome.success → s.get_stored_object = some v2 →
      async_extract_cont s ec = (Outcome.success, v2)) ∧
    (ec = Outcome.success → s.get_stored_object = none →
      async_extract_cont s ec = (Outcome.unready, 0)) ∧
    async_extract_cont_void ec = ec := by
  refine ⟨rfl, rfl, ?_, ?_, ?_, ?_⟩
  · intro h
    simp [async_extract_cont, h]
  · intro v2 h hv
    subst h
    simp [async_extract_cont, hv]
  · intro h hv
    subst h
    simp [async_extract_cont, hv]
  · unfold async_extract_cont_void
    split <;> rfl

/-- Witness for C8: a null receiver fails with no_state; on the concrete
state after register-wait and send 9, the continuation run with success
extracts the value 9; with an error it forwards the error; on the initial
(valueless) state with success it completes with unready. -/
theorem C8_async_extract_witness :
    async_extract_start none true = Except.error Outcome.noState ∧
    async_extract_cont
      (run shared_state.init [Act.registerWait false, Act.send 9])
      Outcome.success = (Outcome.success, 9) ∧
    async_extract_cont shared_state.init Outcome.brokenSender =
      (Outcome.brokenSender, 0) ∧
    async_extract_cont shared_state.init Outcome.success =
      (Outcome.unready, 0) :=
  ⟨(C8_async_extract shared_state.init Outcome.success true).1,
   (C8_async_extract
     (run shared_state.init [Act.registerWait false, Act.send 9])
     Outcome.success true).2.2.2.1 9 rfl (by decide),
   (C8_async_extract shared_state.init Outcome.brokenSender true).2.2.1
     (by decide),
   (C8_async_extract shared_state.init Outcome.success true).2.2.2.2.1 rfl
     (by decide)⟩

/-- Claim C9: in every reachable state `is_ready` agrees with whether a
value is live (so it is false before a value has been engaged or sent and
true after), and once it returns true it never returns false in any later
state of the same cell reached before the cell is freed. -/
theorem C9_is_ready_monotone (as bs : List Act)
    (hv : validFrom shared_state.init as = true)
    (hvb : validFrom (run shared_state.init as) bs = true) :
    ((run shared_state.init as).is_ready = true ↔
      (run shared_state.init as).value_live = true) ∧
    ((run shared_state.init as).construct_count = 0 →
      (run shared_state.init as).is_ready = false) ∧
    ((run shared_state.init as).is_ready = true →
      (run (run shared_state.init as) bs).free_count = 0 →
      (run (run shared_state.init as) bs).is_ready = true) := by
  have hB := invB_run shared_state.init as invB_init hv
  have hB2 := invB_run (run shared_state.init as) bs hB hvb
  have hiff := invB_is_ready_iff_live (run shared_state.init as) hB
  refine ⟨hiff, ?_, ?_⟩
  · intro hc0
    cases hir : (run shared_state.init as).is_ready with
    | false => rfl
    | true =>
        have hlv := hiff.mp hir
        have := hB.cnt_live_t hlv
        omega
  · intro hir hf
    have hlv := hiff.mp hir
    have hlv2 := value_live_mono_run (run shared_state.init as) bs hlv hf
    exact (invB_is_ready_iff_live _ hB2).mpr hlv2

/-- Witness for C9: after register-wait and send, `is_ready` is true and
stays true across a later delivery step. -/
theorem C9_is_ready_monotone_witness :
    validFrom shared_state.init [Act.registerWait false, Act.send 7] =
      true ∧
    validFrom (run shared_state.init [Act.registerWait false, Act.send 7])
      [Act.deliver 0] = true ∧
    (run (run shared_state.init [Act.registerWait false, Act.send 7])
      [Act.deliver 0]).is_ready = true :=
  ⟨by decide, by decide,
   (C9_is_ready_monotone [Act.registerWait false, Act.send 7]
     [Act.deliver 0] (by decide) (by decide)).2.2 (by decide) (by decide)⟩

/-- Claim C10: completing a registered wait via send (Waiting to Sent)
does not clear `wait_op_` — so after the wait has already been completed
with success by send, a subsequent register-wait on the same cell is
rejected with duplicate_wait_on_receiver even though no wait is
outstanding. -/
theorem C10_wait_reference_not_cleared (s : shared_state) (v : Nat)
    (i : Nat) (r : Reg) (b : Bool) (h : s.state_ = waiting)
    (hw : s.wait_op_ = some i) (hr : s.regs[i]? = some r) :
    (s.send v).wait_op_ = some i ∧
    (s.send v).regs[i]? = some (appendOutcome Outcome.success r) ∧
    ((s.send v).async_wait b).regs[s.regs.length]? =
      some (appendOutcome Outcome.duplicateWait (newReg b)) ∧
    ((s.send v).async_wait b).wait_op_ = some i ∧
    ((s.send v).async_wait b).state_ = sent := by
  have hsend := send_waiting_eq s v i h hw
  have hw2 : (s.send v).wait_op_ = some i := by
    rw [hsend]
    exact hw
  have hdup := async_wait_dup_eq (s.send v) b i hw2
  refine ⟨hw2, ?_, ?_, ?_, ?_⟩
  · rw [hsend]
    show (modifyAt (appendOutcome Outcome.success) s.regs i)[i]? = _
    rw [modifyAt_getElem?_self, hr]
    rfl
  · rw [hdup]
    have hlen : (s.send v).regs.length = s.regs.length := by
      rw [hsend]
      exact modifyAt_length _ _ _
    rw [← hlen]
    exact getElem?_append_length _ _
  · rw [hdup]
    exact hw2
  · rw [hdup]
    show (s.send v).state_ = sent
    rw [hsend]

/-- Witness for C10: register-wait then send 7 then a second register-wait
on the concrete cell — the second registration is rejected as a duplicate
although the first was already completed. -/
theorem C10_wait_reference_not_cleared_witness :
    ((shared_state.init.async_wait false).send 7).wait_op_ = some 0 ∧
    (((shared_state.init.async_wait false).send 7).async_wait true
      ).regs[1]? =
      some (appendOutcome Outcome.duplicateWait (newReg true)) :=
  ⟨(C10_wait_reference_not_cleared (shared_state.init.async_wait false) 7
     0 (newReg false) true (by decide) (by decide) (by decide)).1,
   (C10_wait_reference_not_cleared (shared_state.init.async_wait false) 7
     0 (newReg false) true (by decide) (by decide) (by decide)).2.2.1⟩

end Oneshot
